import Mathlib

/-!
# The `xc-enc` driver (`src/frontend/xc-enc.cc`)

A shallow embedding of `main` and of the calls it makes. The collaborators
whose code lives outside `xc-enc.cc` (the frame readers, `Encoder`, the
encoder-state serializer, and the C library's `getopt_long`, `stod`, `stoul`)
are the fields of a `World`; `main` is a function of a `World`, the checkpoint
store, the argument vector and a fuel bound on the encode loop, and it returns
the exit status together with the log of collaborator calls and of what was
printed on the error stream.
-/

namespace XcEnc

/-- A C++ `double`, kept as its IEEE-754 binary64 bit pattern. -/
structure Double where
  bits : Nat
deriving DecidableEq, Repr

/-- The literal `0.99` of line 60: the binary64 value nearest to 0.99. -/
def ssim_default : Double := ⟨0x3FEFAE147AE147AE⟩

/-- `numeric_limits<size_t>::max()` on a target with a 64-bit `size_t`. -/
def SIZE_MAX : Nat := 2 ^ 64 - 1

/-- The status `EXIT_SUCCESS` of `<cstdlib>`. -/
def EXIT_SUCCESS : Nat := 0

/-- The status `EXIT_FAILURE` of `<cstdlib>`. -/
def EXIT_FAILURE : Nat := 1

/-- The option variables declared on lines 56-63. -/
structure Config where
  output_file : String
  input_format : String
  input_state : String
  output_state : String
  ssim : Double
  two_pass : Bool
  y_ac_qi : Nat
deriving DecidableEq, Repr

/-- The initial values of lines 56-63. -/
def Config.initial : Config where
  output_file := "output.ivf"
  input_format := "ivf"
  input_state := ""
  output_state := ""
  ssim := ssim_default
  two_pass := false
  y_ac_qi := SIZE_MAX

/-- What the calls to `getopt_long` of lines 76-81 deliver for one argument
vector: `opts` lists, in order, the value returned and `optarg` for every call
before the one that returns -1, and `operands` is `argv[optind..argc)` once -1
has been returned (so `optind >= argc` exactly when `operands` is empty, and
`argv[optind]` is its head). -/
structure GetoptRun where
  opts : List (Char × String)
  operands : List String
deriving DecidableEq, Repr

/-- The collaborators of `main`. A call that throws a `std::exception` returns
`.error what`. What `getopt_long` itself prints about an option it does not
know is not part of the model. `R` is `RasterHandle`, `S` the state of a `FrameInput`, `E` an
`Encoder`, `B` the content of an `EncoderStateSerializer`, `St` the durable
store that holds checkpoint files. -/
structure World (R S E B St : Type) where
  getopt_long : List String → GetoptRun
  stod : String → Except String Double
  /-- `stoul` returns an `unsigned long`, 64 bits wide. -/
  stoul : String → Except String (Fin (2 ^ 64))
  IVFReader : String → Except String S
  YUV4MPEGReader : String → Except String S
  /-- `YUV4MPEGReader( FileDescriptor( STDIN_FILENO ) )`. -/
  YUV4MPEGReader_stdin : Except String S
  display_width : S → Nat
  display_height : S → Nat
  /-- `get_next_frame` returns the frame, or `none` at the end of the
  sequence, and the reader's new state. -/
  get_next_frame : S → Except String (Option R × S)
  /-- The constructor `Encoder(output_file, width, height, two_pass)`. -/
  Encoder : String → Nat → Nat → Bool → Except String E
  /-- `EncoderStateDeserializer::build<Encoder>(input_state, output_file, two_pass)`. -/
  build : St → String → String → Bool → Except String E
  /-- `encoder.encode(raster, ssim, y_ac_qi)`: the achieved score and the
  encoder after the call. -/
  encode : E → R → Double → Nat → Except String (Double × E)
  serialize : E → Except String B
  /-- `odata.write(output_state)`: the store after the write. -/
  write : St → B → String → Except String St

/-- The lines `usage_error` (lines 26-42) sends to `cerr`. -/
def usage_error (program_name : String) : List String :=
  ["Usage: " ++ program_name ++ " [options] <input>",
   "",
   "Options:",
   " -o <arg>, --output=<arg>              Output file name (default: output.ivf)",
   " -s <arg>, --ssim=<arg>                SSIM for the output",
   " -i <arg>, --input-format=<arg>        Input file format",
   "                                         ivf (default), y4m",
   " -O <arg>, --output-state=<arg>        Output file name for final",
   "                                         encoder state (default: none)",
   " -I <arg>, --input-state=<arg>         Input file name for initial",
   "                                         encoder state (default: none)",
   " --two-pass                            Do the second encoding pass",
   " --y-ac-qi <arg>                       Quantization index for Y",
   ""]

/-- The log of a run: every collaborator call with its arguments and what it
returned, and every message sent to `cerr`. -/
inductive Event (R S E B : Type) where
  /-- The call `usage_error( argv[ 0 ] )`, which prints `usage_error program_name`. -/
  | usage_error (program_name : String)
  /-- The call `print_exception( argv[ 0 ], e )` of the `catch` clause. -/
  | print_exception (program_name : String) (what : String)
  | IVFReader (input_file : String) (result : Except String S)
  | YUV4MPEGReader_stdin (result : Except String S)
  | YUV4MPEGReader (input_file : String) (result : Except String S)
  | Encoder (output_file : String) (width height : Nat) (two_pass : Bool)
      (result : Except String E)
  | build (input_state output_file : String) (two_pass : Bool) (result : Except String E)
  | get_next_frame (reader : S) (result : Except String (Option R × S))
  | encode (encoder : E) (raster : R) (ssim : Double) (y_ac_qi : Nat)
      (result : Except String (Double × E))
  | report (frame_index : Nat) (result_ssim : Double)
  | serialize (encoder : E) (result : Except String B)
  | write (odata : B) (output_state : String) (result : Except String Unit)

/-- How the process ends: `return` from `main` with a status, or `abort()`. -/
inductive Outcome where
  | exit (status : Nat)
  | abort
deriving DecidableEq, Repr

/-- A finished run of `main`. `encoder` is the `Encoder` object as it stands
when the `try` block has run to its end, `none` when the block was left
earlier. -/
structure Run (R S E B St : Type) where
  status : Outcome
  trace : List (Event R S E B)
  store : St
  encoder : Option E

variable {R S E B St : Type}

/-- The body of the `switch` of lines 83-114 for one returned `opt`. -/
def apply_option (w : World R S E B St) (cfg : Config) (opt : Char) (optarg : String) :
    Except String Config :=
  if opt = 'o' then .ok { cfg with output_file := optarg }
  else if opt = 's' then
    match w.stod optarg with
    | .error what => .error what
    | .ok v => .ok { cfg with ssim := v }
  else if opt = 'i' then .ok { cfg with input_format := optarg }
  else if opt = 'O' then .ok { cfg with output_state := optarg }
  else if opt = 'I' then .ok { cfg with input_state := optarg }
  else if opt = '2' then .ok { cfg with two_pass := true }
  else if opt = 'y' then
    match w.stoul optarg with
    | .error what => .error what
    | .ok v => .ok { cfg with y_ac_qi := v.val }
  else .error "getopt_long: unexpected return value."

/-- The `while ( true )` loop of lines 76-115 over the values `getopt_long`
returns. -/
def parse_options (w : World R S E B St) : List (Char × String) → Config → Except String Config
  | [], cfg => .ok cfg
  | (opt, optarg) :: rest, cfg =>
    match apply_option w cfg opt optarg with
    | .error what => .error what
    | .ok cfg' => parse_options w rest cfg'

/-- Where lines 47-122 leave `main`. -/
inductive Parsed where
  | abort
  | usage (program_name : String)
  | threw (program_name : String) (what : String)
  | ready (program_name : String) (cfg : Config) (input_file : String)
deriving DecidableEq, Repr

/-- Lines 47-122: the `argc` checks, option parsing, and the positional
argument. -/
def parse_args (w : World R S E B St) (argv : List String) : Parsed :=
  match argv with
  | [] => .abort
  | program_name :: _ =>
    if argv.length < 2 then .usage program_name
    else
      match parse_options w (w.getopt_long argv).opts Config.initial with
      | .error what => .threw program_name what
      | .ok cfg =>
        match (w.getopt_long argv).operands with
        | [] => .usage program_name
        | input_file :: _ => .ready program_name cfg input_file

/-- Lines 123-143: the choice of the frame reader. -/
def open_input (w : World R S E B St) (input_format input_file : String) :
    List (Event R S E B) × Except String S :=
  if input_format = "ivf" then
    if input_file = "-" then ([], .error "not supported")
    else ([.IVFReader input_file (w.IVFReader input_file)], w.IVFReader input_file)
  else if input_format = "y4m" then
    if input_file = "-" then
      ([.YUV4MPEGReader_stdin w.YUV4MPEGReader_stdin], w.YUV4MPEGReader_stdin)
    else ([.YUV4MPEGReader input_file (w.YUV4MPEGReader input_file)],
          w.YUV4MPEGReader input_file)
  else ([], .error "unsupported input format")

/-- Lines 145-147: a fresh `Encoder`, or one rebuilt from `input_state`. -/
def make_encoder (w : World R S E B St) (store : St) (cfg : Config) (reader : S) :
    List (Event R S E B) × Except String E :=
  if cfg.input_state = "" then
    let result := w.Encoder cfg.output_file (w.display_width reader)
      (w.display_height reader) cfg.two_pass
    ([.Encoder cfg.output_file (w.display_width reader) (w.display_height reader)
        cfg.two_pass result], result)
  else
    let result := w.build store cfg.input_state cfg.output_file cfg.two_pass
    ([.build cfg.input_state cfg.output_file cfg.two_pass result], result)

/-- The `while ( raster.initialized() )` loop of lines 153-159. Each iteration
uses one unit of fuel; `none` is a loop that has not ended when the fuel is
spent. `frame_index` is a `size_t` that no session can make wrap, kept as a
`Nat`. -/
def encode_loop (w : World R S E B St) (ssim : Double) (y_ac_qi : Nat) :
    Nat → Option R → S → E → Nat → Option (List (Event R S E B) × Except String E)
  | _, none, _, encoder, _ => some ([], .ok encoder)
  | 0, some _, _, _, _ => none
  | fuel + 1, some raster, reader, encoder, frame_index =>
    match w.encode encoder raster ssim y_ac_qi with
    | .error what =>
      some ([.encode encoder raster ssim y_ac_qi (.error what)], .error what)
    | .ok (result_ssim, encoder') =>
      match w.get_next_frame reader with
      | .error what =>
        some ([.encode encoder raster ssim y_ac_qi (.ok (result_ssim, encoder')),
               .report frame_index result_ssim,
               .get_next_frame reader (.error what)], .error what)
      | .ok (raster', reader') =>
        match encode_loop w ssim y_ac_qi fuel raster' reader' encoder' (frame_index + 1) with
        | none => none
        | some (events, result) =>
          some (.encode encoder raster ssim y_ac_qi (.ok (result_ssim, encoder')) ::
                .report frame_index result_ssim ::
                .get_next_frame reader (.ok (raster', reader')) :: events, result)

/-- Lines 161-165: the optional checkpoint at the end of the session. -/
def save_state (w : World R S E B St) (store : St) (output_state : String) (encoder : E) :
    List (Event R S E B) × Except String St :=
  if output_state ≠ "" then
    match w.serialize encoder with
    | .error what => ([.serialize encoder (.error what)], .error what)
    | .ok odata =>
      match w.write store odata output_state with
      | .error what =>
        ([.serialize encoder (.ok odata), .write odata output_state (.error what)],
         .error what)
      | .ok store' =>
        ([.serialize encoder (.ok odata), .write odata output_state (.ok ())], .ok store')
  else ([], .ok store)

/-- The `catch` clause of lines 166-169. The store of the run is the one it
started with: what a `write` that threw has left behind is not modelled. -/
def caught (program_name : String) (events : List (Event R S E B)) (store : St)
    (what : String) : Run R S E B St :=
  ⟨.exit EXIT_FAILURE, events ++ [.print_exception program_name what], store, none⟩

/-- Lines 123-165 for a parsed command line. -/
def session (w : World R S E B St) (store : St) (program_name : String) (cfg : Config)
    (input_file : String) (fuel : Nat) : Option (Run R S E B St) :=
  match open_input w cfg.input_format input_file with
  | (t1, .error what) => some (caught program_name t1 store what)
  | (t1, .ok reader) =>
    match make_encoder w store cfg reader with
    | (t2, .error what) => some (caught program_name (t1 ++ t2) store what)
    | (t2, .ok encoder) =>
      match w.get_next_frame reader with
      | .error what =>
        some (caught program_name
          (t1 ++ t2 ++ [.get_next_frame reader (.error what)]) store what)
      | .ok (raster, reader') =>
        match encode_loop w cfg.ssim cfg.y_ac_qi fuel raster reader' encoder 0 with
        | none => none
        | some (t3, .error what) =>
          some (caught program_name
            (t1 ++ t2 ++ .get_next_frame reader (.ok (raster, reader')) :: t3) store what)
        | some (t3, .ok encoder') =>
          match save_state w store cfg.output_state encoder' with
          | (t4, .error what) =>
            some (caught program_name
              (t1 ++ t2 ++ .get_next_frame reader (.ok (raster, reader')) :: t3 ++ t4)
              store what)
          | (t4, .ok store') =>
            some ⟨.exit EXIT_SUCCESS,
              t1 ++ t2 ++ .get_next_frame reader (.ok (raster, reader')) :: t3 ++ t4,
              store', some encoder'⟩

/-- The function `main` of `xc-enc.cc`. -/
def main (w : World R S E B St) (store : St) (argv : List String) (fuel : Nat) :
    Option (Run R S E B St) :=
  match parse_args w argv with
  | .abort => some ⟨.abort, [], store, none⟩
  | .usage program_name =>
    some ⟨.exit EXIT_FAILURE, [.usage_error program_name], store, none⟩
  | .threw program_name what => some (caught program_name [] store what)
  | .ready program_name cfg input_file => session w store program_name cfg input_file fuel

/-! ## Reading a log -/

/-- One logged call of `encoder.encode`. -/
structure EncodeCall (R E : Type) where
  encoder : E
  raster : R
  ssim : Double
  y_ac_qi : Nat
  result : Except String (Double × E)

/-- The entry as a call of `encode`, when it is one. -/
def Event.encode_call? : Event R S E B → Option (EncodeCall R E)
  | .encode encoder raster ssim y_ac_qi result => some ⟨encoder, raster, ssim, y_ac_qi, result⟩
  | _ => none

/-- The entry as a progress report, when it is one. -/
def Event.report? : Event R S E B → Option (Nat × Double)
  | .report frame_index result_ssim => some (frame_index, result_ssim)
  | _ => none

/-- What `get_next_frame` returned, when the entry is such a call. -/
def Event.poll? : Event R S E B → Option (Except String (Option R × S))
  | .get_next_frame _ result => some result
  | _ => none

/-- What the construction of a frame reader returned, when the entry is one. -/
def Event.reader? : Event R S E B → Option (Except String S)
  | .IVFReader _ result => some result
  | .YUV4MPEGReader_stdin result => some result
  | .YUV4MPEGReader _ result => some result
  | _ => none

/-- The entry as a call of `serialize`, when it is one. -/
def Event.serialize_call? : Event R S E B → Option (E × Except String B)
  | .serialize encoder result => some (encoder, result)
  | _ => none

/-- The entry as a call of `write`, when it is one. -/
def Event.write_call? : Event R S E B → Option (B × String × Except String Unit)
  | .write odata output_state result => some (odata, output_state, result)
  | _ => none

/-- The program name of a usage text, when the entry is one. -/
def Event.usage? : Event R S E B → Option String
  | .usage_error program_name => some program_name
  | _ => none

/-- The calls of `encoder.encode` of a log, in order. -/
def encode_calls (trace : List (Event R S E B)) : List (EncodeCall R E) :=
  trace.filterMap Event.encode_call?

/-- The progress reports of a log, in order: frame number and score. -/
def reports (trace : List (Event R S E B)) : List (Nat × Double) :=
  trace.filterMap Event.report?

/-- What the calls of `get_next_frame` of a log returned, in order. -/
def polls (trace : List (Event R S E B)) : List (Except String (Option R × S)) :=
  trace.filterMap Event.poll?

/-- What the calls of `get_next_frame` of a log delivered, in order: a frame,
the end of the sequence (`none`), or an error. -/
def poll_frames (trace : List (Event R S E B)) : List (Except String (Option R)) :=
  (polls trace).map (fun result =>
    match result with
    | .ok (raster, _) => .ok raster
    | .error what => .error what)

/-- What the frame-reader constructions of a log returned. -/
def reader_calls (trace : List (Event R S E B)) : List (Except String S) :=
  trace.filterMap Event.reader?

/-- The calls of `serialize` of a log: the encoder and what was returned. -/
def serialize_calls (trace : List (Event R S E B)) : List (E × Except String B) :=
  trace.filterMap Event.serialize_call?

/-- The calls of `write` of a log: the data, the path and what was returned. -/
def write_calls (trace : List (Event R S E B)) : List (B × String × Except String Unit) :=
  trace.filterMap Event.write_call?

/-- The program names of the usage texts printed. -/
def usage_texts (trace : List (Event R S E B)) : List String :=
  trace.filterMap Event.usage?

/-- The logged call threw. -/
def Event.raised : Event R S E B → Bool
  | .IVFReader _ (.error _) => true
  | .YUV4MPEGReader_stdin (.error _) => true
  | .YUV4MPEGReader _ (.error _) => true
  | .Encoder _ _ _ _ (.error _) => true
  | .build _ _ _ (.error _) => true
  | .get_next_frame _ (.error _) => true
  | .encode _ _ _ _ (.error _) => true
  | .serialize _ (.error _) => true
  | .write _ _ (.error _) => true
  | _ => false

/-- The entry is a call of `write`. -/
def Event.is_write : Event R S E B → Bool
  | .write _ _ _ => true
  | _ => false

/-- The scores the successful calls of a list returned, in order. -/
def scores (calls : List (EncodeCall R E)) : List Double :=
  calls.filterMap (fun c =>
    match c.result with
    | .ok (score, _) => some score
    | .error _ => none)

/-- The first call of `calls` acts on `encoder`, every call returns, and each
later call acts on the encoder the call before it returned; `final` is the
encoder the last call returned (`encoder` itself when there is no call). -/
def chained : E → List (EncodeCall R E) → E → Prop
  | encoder, [], final => final = encoder
  | encoder, c :: rest, final =>
    c.encoder = encoder ∧
      match c.result with
      | .ok (_, encoder') => chained encoder' rest final
      | .error _ => False

/-- Polled from state `reader` on, the source delivers exactly the frames `xs`
and then signals the end of the sequence. -/
def yields (w : World R S E B St) : S → List R → Prop
  | reader, [] =>
    match w.get_next_frame reader with
    | .ok (none, _) => True
    | _ => False
  | reader, x :: xs =>
    match w.get_next_frame reader with
    | .ok (some y, reader') => y = x ∧ yields w reader' xs
    | _ => False

/-- The encoder after `encode` has been called on the frames `xs` in order,
each call acting on the encoder the one before it left. -/
def encode_all (w : World R S E B St) (ssim : Double) (y_ac_qi : Nat) :
    E → List R → Except String E
  | encoder, [] => .ok encoder
  | encoder, x :: xs =>
    match w.encode encoder x ssim y_ac_qi with
    | .error what => .error what
    | .ok (_, encoder') => encode_all w ssim y_ac_qi encoder' xs

/-- What holds of every call `main` logs for the options `cfg` and the input
`input_file`: the arguments are the ones the source passes at that call site,
the branch that leads to the call was taken, and the logged result is what
the collaborator of `w` returns. The two messages are not calls. -/
def Event.conforms (w : World R S E B St) (store : St) (cfg : Config) (input_file : String) :
    Event R S E B → Prop
  | .usage_error _ => False
  | .print_exception _ _ => False
  | .IVFReader file result =>
    cfg.input_format = "ivf" ∧ file = input_file ∧ file ≠ "-" ∧ result = w.IVFReader file
  | .YUV4MPEGReader_stdin result =>
    cfg.input_format = "y4m" ∧ input_file = "-" ∧ result = w.YUV4MPEGReader_stdin
  | .YUV4MPEGReader file result =>
    cfg.input_format = "y4m" ∧ file = input_file ∧ file ≠ "-" ∧
      result = w.YUV4MPEGReader file
  | .Encoder output_file width height two_pass result =>
    cfg.input_state = "" ∧ output_file = cfg.output_file ∧ two_pass = cfg.two_pass ∧
      result = w.Encoder output_file width height two_pass
  | .build input_state output_file two_pass result =>
    cfg.input_state ≠ "" ∧ input_state = cfg.input_state ∧ output_file = cfg.output_file ∧
      two_pass = cfg.two_pass ∧ result = w.build store input_state output_file two_pass
  | .get_next_frame reader result => result = w.get_next_frame reader
  | .encode encoder raster ssim y_ac_qi result =>
    ssim = cfg.ssim ∧ y_ac_qi = cfg.y_ac_qi ∧ result = w.encode encoder raster ssim y_ac_qi
  | .report _ _ => True
  | .serialize encoder result => cfg.output_state ≠ "" ∧ result = w.serialize encoder
  | .write odata output_state result =>
    cfg.output_state ≠ "" ∧ output_state = cfg.output_state ∧
      result = (w.write store odata output_state).map (fun _ => ())

/-- No call of the log threw and none is a checkpoint write. -/
def quiet (trace : List (Event R S E B)) : Prop :=
  ∀ ev ∈ trace, ev.raised = false ∧ ev.is_write = false

/-- A call that threw, or a checkpoint write, can only be the last entry. -/
def tidy (trace : List (Event R S E B)) : Prop :=
  quiet trace.dropLast

/-- The entries the encode loop writes. -/
def Event.in_loop : Event R S E B → Bool
  | .encode _ _ _ _ _ => true
  | .report _ _ => true
  | .get_next_frame _ _ => true
  | _ => false

/-- Polled from state `reader` on, the source delivers at most `n` frames
before it signals the end of the sequence or a read throws. -/
def ends_within (w : World R S E B St) : Nat → S → Prop
  | 0, reader =>
    match w.get_next_frame reader with
    | .ok (some _, _) => False
    | _ => True
  | n + 1, reader =>
    match w.get_next_frame reader with
    | .ok (some _, reader') => ends_within w n reader'
    | _ => True

/-- The argument of the last occurrence of the option `c` among the values
`getopt_long` returned, `none` when `c` was not returned. -/
def last_arg (c : Char) : List (Char × String) → Option String
  | [] => none
  | (opt, optarg) :: rest =>
    match last_arg c rest with
    | some a => some a
    | none => if opt = c then some optarg else none

/-- The entry logs the construction of the encoder, fresh or from a checkpoint. -/
def Event.is_construction : Event R S E B → Bool
  | .Encoder _ _ _ _ _ => true
  | .build _ _ _ _ => true
  | _ => false

/-- The world `w` with other answers to `display_width` and `display_height`. -/
def with_display (w : World R S E B St) (display_width display_height : S → Nat) :
    World R S E B St :=
  { w with display_width := display_width, display_height := display_height }

/-- The scores `encode` returns when it is called on the frames `xs` in order,
each call acting on the encoder the one before it left. -/
def score_list (w : World R S E B St) (ssim : Double) (y_ac_qi : Nat) : E → List R → List Double
  | _, [] => []
  | encoder, x :: xs =>
    match w.encode encoder x ssim y_ac_qi with
    | .error _ => []
    | .ok (score, encoder') => score :: score_list w ssim y_ac_qi encoder' xs

/-- The option loop goes through the returned option without throwing: it is
one of `-o`, `-i`, `-O`, `-I`, `--two-pass`, or `-s` with an argument `stod`
converts, or `--y-ac-qi` with an argument `stoul` converts. -/
def option_accepted (w : World R S E B St) (o : Char × String) : Prop :=
  o.1 = 'o' ∨ o.1 = 'i' ∨ o.1 = 'O' ∨ o.1 = 'I' ∨ o.1 = '2' ∨
    (o.1 = 's' ∧ ∃ v, w.stod o.2 = .ok v) ∨ (o.1 = 'y' ∧ ∃ v, w.stoul o.2 = .ok v)

/-- The world `w` whose constructions of the encoder, `Encoder(...)` and
`build(...)`, are given the opposite two-pass flag. -/
def with_flag_negated (w : World R S E B St) : World R S E B St :=
  { w with
    Encoder := fun output_file width height two_pass =>
      w.Encoder output_file width height (!two_pass),
    build := fun store input_state output_file two_pass =>
      w.build store input_state output_file (!two_pass) }

instance yields_decidable [DecidableEq R] (w : World R S E B St) :
    ∀ (reader : S) (xs : List R), Decidable (yields w reader xs)
  | reader, [] => by
    unfold yields
    split <;> infer_instance
  | reader, x :: xs => by
    unfold yields
    split
    · exact @instDecidableAnd _ _ _ (yields_decidable w _ xs)
    · infer_instance

instance ends_within_decidable (w : World R S E B St) :
    ∀ (n : Nat) (reader : S), Decidable (ends_within w n reader)
  | 0, reader => by
    unfold ends_within
    split <;> infer_instance
  | n + 1, reader => by
    unfold ends_within
    split
    · exact ends_within_decidable w n _
    · infer_instance

instance chained_decidable [DecidableEq E] :
    ∀ (encoder : E) (calls : List (EncodeCall R E)) (final : E),
      Decidable (chained encoder calls final)
  | encoder, [], final => by
    unfold chained
    infer_instance
  | encoder, c :: rest, final => by
    unfold chained
    have : Decidable (match c.result with
        | .ok (_, encoder') => chained encoder' rest final
        | .error _ => False) := by
      split
      · exact chained_decidable _ rest final
      · infer_instance
    infer_instance

/-! ## A concrete world

Stand-ins for the collaborators, used to run `main` on explicit command lines.
-/

/-- A frame reader of the concrete world: the declared display size and the
frames still to be delivered. -/
structure DemoReader where
  width : Nat
  height : Nat
  frames : List Nat
deriving DecidableEq, Repr

/-- An encoder of the concrete world: where it writes, its two-pass flag, the
frame size, the number of frames encoded and a digest of them. -/
structure DemoEncoder where
  output_file : String
  two_pass : Bool
  width : Nat
  height : Nat
  frame_count : Nat
  digest : Nat
deriving DecidableEq, Repr

/-- How one command-line word reads to the stand-in for `getopt_long`. -/
inductive DemoWord where
  | operand
  | terminator
  | complete (opt : Char) (optarg : String)
  | needs_arg (opt : Char)
  | unknown
deriving DecidableEq, Repr

/-- The long options of lines 65-74: the value returned and whether the option
takes an argument. -/
def demo_long_option (name : String) : Option (Char × Bool) :=
  if name = "output" then some ('o', true)
  else if name = "ssim" then some ('s', true)
  else if name = "input-format" then some ('i', true)
  else if name = "output-state" then some ('O', true)
  else if name = "input-state" then some ('I', true)
  else if name = "two-pass" then some ('2', false)
  else if name = "y-ac-qi" then some ('y', true)
  else none

/-- One word of the command line against the option string `"o:s:i:O:I:"` and
the long options. Long names are matched exactly. -/
def demo_word (a : String) : DemoWord :=
  match a.data with
  | ['-', '-'] => .terminator
  | '-' :: '-' :: body =>
    match demo_long_option (String.mk (body.takeWhile (fun c => c ≠ '='))),
        body.dropWhile (fun c => c ≠ '=') with
    | some (c, true), _ :: v => .complete c (String.mk v)
    | some (c, true), [] => .needs_arg c
    | some (c, false), [] => .complete c ""
    | some (_, false), _ :: _ => .unknown
    | none, _ => .unknown
  | '-' :: c :: tail =>
    if c = 'o' ∨ c = 's' ∨ c = 'i' ∨ c = 'O' ∨ c = 'I' then
      match tail with
      | [] => .needs_arg c
      | _ :: _ => .complete c (String.mk tail)
    else .unknown
  | _ => .operand

/-- The words after `argv[0]`, read left to right; `pending` is an option that
still waits for its argument. An unknown option or a missing argument is
reported as `'?'`, and the first operand ends the options (the behaviour of
`getopt_long` under `POSIXLY_CORRECT`). -/
def demo_getopt_words : Option Char → List String → GetoptRun
  | some _, [] => ⟨[('?', "")], []⟩
  | some c, v :: rest =>
    ⟨(c, v) :: (demo_getopt_words none rest).opts, (demo_getopt_words none rest).operands⟩
  | none, [] => ⟨[], []⟩
  | none, a :: rest =>
    match demo_word a with
    | .operand => ⟨[], a :: rest⟩
    | .terminator => ⟨[], rest⟩
    | .complete c v =>
      ⟨(c, v) :: (demo_getopt_words none rest).opts, (demo_getopt_words none rest).operands⟩
    | .needs_arg c => demo_getopt_words (some c) rest
    | .unknown =>
      ⟨('?', "") :: (demo_getopt_words none rest).opts, (demo_getopt_words none rest).operands⟩

/-- A stand-in for `stod` that knows a few spellings. -/
def demo_stod (s : String) : Except String Double :=
  if s = "0.99" then .ok ssim_default
  else if s = "0.95" then .ok ⟨0x3FEE666666666666⟩
  else if s = "0.5" then .ok ⟨0x3FE0000000000000⟩
  else if s = "1" then .ok ⟨0x3FF0000000000000⟩
  else .error "stod"

/-- A stand-in for `stoul`: the leading decimal digits of the word. -/
def demo_stoul (s : String) : Except String (Fin (2 ^ 64)) :=
  match s.data.takeWhile Char.isDigit with
  | [] => .error "stoul"
  | ds =>
    if h : ds.foldl (fun n c => 10 * n + (c.toNat - 48)) 0 < 2 ^ 64 then
      .ok ⟨ds.foldl (fun n c => 10 * n + (c.toNat - 48)) 0, h⟩
    else .error "stoul"

/-- The input files of the concrete world. -/
def demo_frames (input_file : String) : Except String DemoReader :=
  if input_file = "empty.ivf" then .ok ⟨16, 8, []⟩
  else if input_file = "two.ivf" then .ok ⟨16, 8, [1, 2]⟩
  else if input_file = "ten.ivf" then .ok ⟨16, 8, [1, 2, 3, 4, 5, 6, 7, 8, 9, 10]⟩
  else if input_file = "head.ivf" then .ok ⟨16, 8, [1, 2, 3, 4, 5]⟩
  else if input_file = "tail.ivf" then .ok ⟨16, 8, [6, 7, 8, 9, 10]⟩
  else if input_file = "bad.ivf" then .ok ⟨16, 8, [1, 0, 3]⟩
  else .error "cannot open input"

/-- The concrete world. Its encoder rejects the raster `0`; its checkpoint
holds the frame size, the frame count and the digest; its store is the list
of files written, newest first, and the path `"/dev/full"` cannot be
written. -/
def demo : World Nat DemoReader DemoEncoder (List Nat) (List (String × List Nat)) where
  getopt_long := fun argv => demo_getopt_words none argv.tail
  stod := demo_stod
  stoul := demo_stoul
  IVFReader := demo_frames
  YUV4MPEGReader := demo_frames
  YUV4MPEGReader_stdin := .ok ⟨16, 8, [7]⟩
  display_width := fun reader => reader.width
  display_height := fun reader => reader.height
  get_next_frame := fun reader =>
    match reader.frames with
    | [] => .ok (none, reader)
    | x :: rest => .ok (some x, { reader with frames := rest })
  Encoder := fun output_file width height two_pass =>
    .ok ⟨output_file, two_pass, width, height, 0, 0⟩
  build := fun store input_state output_file two_pass =>
    match store.lookup input_state with
    | some [width, height, frame_count, digest] =>
      .ok ⟨output_file, two_pass, width, height, frame_count, digest⟩
    | some _ => .error "corrupt encoder state"
    | none => .error "cannot open encoder state"
  encode := fun encoder raster ssim _ =>
    if raster = 0 then .error "bad raster"
    else .ok (⟨ssim.bits - (encoder.digest + raster) % 16⟩,
      { encoder with frame_count := encoder.frame_count + 1,
                     digest := (31 * encoder.digest + raster) % 65521 })
  serialize := fun encoder =>
    .ok [encoder.width, encoder.height, encoder.frame_count, encoder.digest]
  write := fun store odata output_state =>
    if output_state = "/dev/full" then .error "cannot write encoder state"
    else .ok ((output_state, odata) :: store)

/-! ## Runs of the concrete world -/

/-- Encoders of the concrete world agree on what affects encoding when they
have the same frame size, frame count and digest. -/
def demo_agree (e e' : DemoEncoder) : Prop :=
  e.width = e'.width ∧ e.height = e'.height ∧ e.frame_count = e'.frame_count ∧
    e.digest = e'.digest

/-! ## The encode loop -/

theorem encode_loop_none (w : World R S E B St) (ssim : Double) (y_ac_qi : Nat) (fuel : Nat)
    (reader : S) (encoder : E) (frame_index : Nat) :
    encode_loop w ssim y_ac_qi fuel none reader encoder frame_index = some ([], .ok encoder) := by
  cases fuel <;> rfl

/-- With one unit of fuel per frame the loop runs to the end of a source that
yields `x :: xs`, when every `encode` returns. -/
theorem encode_loop_complete (w : World R S E B St) (ssim : Double) (y_ac_qi : Nat) :
    ∀ (xs : List R) (fuel : Nat) (x : R) (reader : S) (encoder : E) (frame_index : Nat)
      (final : E),
      yields w reader xs → encode_all w ssim y_ac_qi encoder (x :: xs) = .ok final →
      xs.length + 1 ≤ fuel →
      ∃ events, encode_loop w ssim y_ac_qi fuel (some x) reader encoder frame_index
          = some (events, .ok final) ∧
        (encode_calls events).map EncodeCall.raster = x :: xs ∧
        chained encoder (encode_calls events) final ∧
        reports events = (scores (encode_calls events)).enumFrom frame_index ∧
        (polls events).length = xs.length + 1 ∧
        poll_frames events = xs.map (fun y => .ok (some y)) ++ [.ok none] := by
  intro xs
  induction xs with
  | nil =>
    intro fuel x reader encoder frame_index final hy hall hfuel
    obtain ⟨fuel, rfl⟩ : ∃ k, fuel = k + 1 := ⟨fuel - 1, by omega⟩
    simp only [encode_all] at hall
    unfold yields at hy
    cases henc : w.encode encoder x ssim y_ac_qi with
    | error what => simp [henc] at hall
    | ok out =>
      obtain ⟨score, encoder'⟩ := out
      simp only [henc] at hall
      cases hpoll : w.get_next_frame reader with
      | error what => simp [hpoll] at hy
      | ok res =>
        obtain ⟨raster', reader'⟩ := res
        cases raster' with
        | some y => simp [hpoll] at hy
        | none =>
          injection hall with hfin
          subst hfin
          have hrun : encode_loop w ssim y_ac_qi (fuel + 1) (some x) reader encoder frame_index
              = some ([.encode encoder x ssim y_ac_qi (.ok (score, encoder')),
                  .report frame_index score,
                  .get_next_frame reader (.ok (none, reader'))], .ok encoder') := by
            simp only [encode_loop, henc, hpoll, encode_loop_none]
          refine ⟨_, hrun, ?_, ?_, ?_, ?_, ?_⟩
          · simp [encode_calls, Event.encode_call?]
          · simp [encode_calls, Event.encode_call?, chained]
          · simp [encode_calls, Event.encode_call?, reports, Event.report?, scores,
              List.enumFrom]
          · simp [polls, Event.poll?]
          · simp [poll_frames, polls, Event.poll?]
  | cons y ys ih =>
    intro fuel x reader encoder frame_index final hy hall hfuel
    obtain ⟨fuel, rfl⟩ : ∃ k, fuel = k + 1 := ⟨fuel - 1, by simp at hfuel; omega⟩
    rw [encode_all] at hall
    unfold yields at hy
    cases henc : w.encode encoder x ssim y_ac_qi with
    | error what => simp [henc] at hall
    | ok out =>
      obtain ⟨score, encoder'⟩ := out
      simp only [henc] at hall
      cases hpoll : w.get_next_frame reader with
      | error what => simp [hpoll] at hy
      | ok res =>
        obtain ⟨raster', reader'⟩ := res
        cases raster' with
        | none => simp [hpoll] at hy
        | some z =>
          simp only [hpoll] at hy
          obtain ⟨rfl, hy'⟩ := hy
          obtain ⟨events, hrun, hr, hc, hrep, hp, hpf⟩ :=
            ih fuel z reader' encoder' (frame_index + 1) final hy' hall
              (by simp at hfuel; omega)
          have hrun' : encode_loop w ssim y_ac_qi (fuel + 1) (some x) reader encoder
              frame_index
              = some (.encode encoder x ssim y_ac_qi (.ok (score, encoder')) ::
                  .report frame_index score ::
                  .get_next_frame reader (.ok (some z, reader')) :: events, .ok final) := by
            simp only [encode_loop, henc, hpoll, hrun]
          refine ⟨_, hrun', ?_, ?_, ?_, ?_, ?_⟩
          · simpa [encode_calls, Event.encode_call?] using hr
          · simpa [encode_calls, Event.encode_call?, chained] using hc
          · simpa [encode_calls, Event.encode_call?, reports, Event.report?, scores,
              List.enumFrom] using hrep
          · simpa [polls, Event.poll?] using hp
          · simpa [poll_frames, polls, Event.poll?] using hpf

/-! ## Invariants of a log -/

theorem quiet_nil : quiet ([] : List (Event R S E B)) := by
  intro ev h
  cases h

theorem quiet_cons {ev : Event R S E B} {trace : List (Event R S E B)}
    (h1 : ev.raised = false) (h2 : ev.is_write = false) (h : quiet trace) :
    quiet (ev :: trace) := by
  intro ev' hmem
  rcases List.mem_cons.mp hmem with rfl | hmem
  · exact ⟨h1, h2⟩
  · exact h ev' hmem

theorem quiet_append {a b : List (Event R S E B)} (ha : quiet a) (hb : quiet b) :
    quiet (a ++ b) := by
  intro ev hmem
  rcases List.mem_append.mp hmem with h | h
  · exact ha ev h
  · exact hb ev h

theorem quiet_tidy {a : List (Event R S E B)} (ha : quiet a) : tidy a := by
  intro ev hmem
  exact ha ev (List.mem_of_mem_dropLast hmem)

theorem tidy_append {a b : List (Event R S E B)} (ha : quiet a) (hb : tidy b) :
    tidy (a ++ b) := by
  by_cases hnil : b = []
  · subst hnil
    simpa using quiet_tidy ha
  · unfold tidy
    rw [List.dropLast_append_of_ne_nil _ hnil]
    exact quiet_append ha hb

theorem tidy_cons {ev : Event R S E B} {b : List (Event R S E B)}
    (h1 : ev.raised = false) (h2 : ev.is_write = false) (hb : tidy b) : tidy (ev :: b) :=
  tidy_append (a := [ev]) (quiet_cons h1 h2 quiet_nil) hb

theorem tidy_singleton (ev : Event R S E B) : tidy [ev] := by
  intro ev' hmem
  simp at hmem

theorem encode_loop_sound (w : World R S E B St) (store : St) (cfg : Config)
    (input_file : String) :
    ∀ (fuel : Nat) (raster : Option R) (reader : S) (encoder : E) (frame_index : Nat)
      (events : List (Event R S E B)) (result : Except String E),
      encode_loop w cfg.ssim cfg.y_ac_qi fuel raster reader encoder frame_index
        = some (events, result) →
      (∀ ev ∈ events, ev.conforms w store cfg input_file ∧ ev.in_loop = true) ∧
        tidy events ∧ (∀ final, result = .ok final → quiet events) := by
  intro fuel
  induction fuel with
  | zero =>
    intro raster reader encoder frame_index events result h
    cases raster with
    | none =>
      simp only [encode_loop_none] at h
      injection h with h
      injection h with h1 h2
      subst h1
      exact ⟨by simp, quiet_tidy quiet_nil, fun _ _ => quiet_nil⟩
    | some x => simp [encode_loop] at h
  | succ fuel ih =>
    intro raster reader encoder frame_index events result h
    cases raster with
    | none =>
      simp only [encode_loop_none] at h
      injection h with h
      injection h with h1 h2
      subst h1
      exact ⟨by simp, quiet_tidy quiet_nil, fun _ _ => quiet_nil⟩
    | some x =>
      rw [encode_loop] at h
      cases henc : w.encode encoder x cfg.ssim cfg.y_ac_qi with
      | error what =>
        simp only [henc] at h
        injection h with h
        injection h with h1 h2
        subst h1 h2
        refine ⟨?_, tidy_singleton _, ?_⟩
        · intro ev hev
          simp at hev
          subst hev
          simp [Event.conforms, Event.in_loop, henc]
        · intro final hfin
          cases hfin
      | ok out =>
        obtain ⟨score, encoder'⟩ := out
        simp only [henc] at h
        cases hpoll : w.get_next_frame reader with
        | error what =>
          simp only [hpoll] at h
          injection h with h
          injection h with h1 h2
          subst h1 h2
          refine ⟨?_, ?_, ?_⟩
          · intro ev hev
            simp at hev
            rcases hev with rfl | rfl | rfl <;>
              simp [Event.conforms, Event.in_loop, henc, hpoll]
          · exact tidy_cons rfl rfl (tidy_cons rfl rfl (tidy_singleton _))
          · intro final hfin
            cases hfin
        | ok res =>
          obtain ⟨raster', reader'⟩ := res
          simp only [hpoll] at h
          cases hrec : encode_loop w cfg.ssim cfg.y_ac_qi fuel raster' reader' encoder'
              (frame_index + 1) with
          | none => simp [hrec] at h
          | some out =>
            obtain ⟨events', result'⟩ := out
            simp only [hrec] at h
            injection h with h
            injection h with h1 h2
            subst h1 h2
            obtain ⟨hc, ht, hq⟩ := ih raster' reader' encoder' (frame_index + 1) events'
              result' hrec
            refine ⟨?_, ?_, ?_⟩
            · intro ev hev
              simp at hev
              rcases hev with rfl | rfl | rfl | hev
              · simp [Event.conforms, Event.in_loop, henc]
              · simp [Event.conforms, Event.in_loop]
              · simp [Event.conforms, Event.in_loop, hpoll]
              · exact hc ev hev
            · exact tidy_cons rfl rfl (tidy_cons rfl rfl (tidy_cons rfl rfl ht))
            · intro final hfin
              exact quiet_cons rfl rfl (quiet_cons rfl rfl (quiet_cons rfl rfl (hq final hfin)))

theorem open_input_sound (w : World R S E B St) (store : St) (cfg : Config)
    (input_file : String) :
    (∀ ev ∈ (open_input w cfg.input_format input_file).1,
        ev.conforms w store cfg input_file ∧ ev.is_write = false) ∧
      (open_input w cfg.input_format input_file).1.length ≤ 1 ∧
      (∀ reader, (open_input w cfg.input_format input_file).2 = .ok reader →
        quiet (open_input w cfg.input_format input_file).1) := by
  unfold open_input
  by_cases h1 : cfg.input_format = "ivf"
  · by_cases h2 : input_file = "-"
    · simp [h1, h2, quiet]
    · simp only [h1, h2, if_true, if_false]
      refine ⟨by simp [Event.conforms, Event.is_write, h1, h2], by simp, ?_⟩
      intro reader hr
      intro ev hev
      simp at hev
      subst hev
      simp [Event.raised, Event.is_write, hr]
  · by_cases h3 : cfg.input_format = "y4m"
    · by_cases h2 : input_file = "-"
      · rw [if_neg h1, if_pos h3, if_pos h2]
        refine ⟨by simp [Event.conforms, Event.is_write, h3, h2], by simp, ?_⟩
        intro reader hr
        intro ev hev
        simp at hev
        subst hev
        dsimp only at hr
        simp [Event.raised, Event.is_write, hr]
      · rw [if_neg h1, if_pos h3, if_neg h2]
        refine ⟨by simp [Event.conforms, Event.is_write, h3, h2], by simp, ?_⟩
        intro reader hr
        intro ev hev
        simp at hev
        subst hev
        dsimp only at hr
        simp [Event.raised, Event.is_write, hr]
    · simp [h1, h3, quiet]

theorem make_encoder_sound (w : World R S E B St) (store : St) (cfg : Config)
    (input_file : String) (reader : S) :
    (∀ ev ∈ (make_encoder w store cfg reader).1,
        ev.conforms w store cfg input_file ∧ ev.is_write = false) ∧
      (make_encoder w store cfg reader).1.length ≤ 1 ∧
      (∀ encoder, (make_encoder w store cfg reader).2 = .ok encoder →
        quiet (make_encoder w store cfg reader).1) := by
  unfold make_encoder
  by_cases h1 : cfg.input_state = ""
  · simp only [h1, if_true]
    refine ⟨by simp [Event.conforms, Event.is_write, h1], by simp, ?_⟩
    intro encoder hr ev hev
    simp at hev
    subst hev
    simp [Event.raised, Event.is_write, hr]
  · simp only [h1, if_false]
    refine ⟨by simp [Event.conforms, Event.is_write, h1], by simp, ?_⟩
    intro encoder hr ev hev
    simp at hev
    subst hev
    simp [Event.raised, Event.is_write, hr]

theorem tidy_of_length_le_one {t : List (Event R S E B)} (h : t.length ≤ 1) : tidy t := by
  match t, h with
  | [], _ => exact quiet_tidy quiet_nil
  | [ev], _ => exact tidy_singleton ev
  | _ :: _ :: _, h => simp at h

theorem save_state_sound (w : World R S E B St) (store : St) (cfg : Config)
    (input_file : String) (encoder : E) :
    (∀ ev ∈ (save_state w store cfg.output_state encoder).1,
        ev.conforms w store cfg input_file) ∧
      tidy (save_state w store cfg.output_state encoder).1 ∧
      (∀ store', (save_state w store cfg.output_state encoder).2 = .ok store' →
        (∀ ev ∈ (save_state w store cfg.output_state encoder).1, ev.raised = false) ∧
        ((cfg.output_state = "" ∧ (save_state w store cfg.output_state encoder).1 = [] ∧
            store' = store) ∨
          (cfg.output_state ≠ "" ∧ ∃ odata, w.serialize encoder = .ok odata ∧
            w.write store odata cfg.output_state = .ok store' ∧
            (save_state w store cfg.output_state encoder).1 =
              [.serialize encoder (.ok odata), .write odata cfg.output_state (.ok ())]))) := by
  by_cases h1 : cfg.output_state = ""
  · have hsave : save_state w store cfg.output_state encoder = ([], .ok store) := by
      simp [save_state, h1]
    rw [hsave]
    refine ⟨by simp, quiet_tidy quiet_nil, ?_⟩
    intro store' hs
    injection hs with hs
    exact ⟨by simp, .inl ⟨h1, rfl, hs.symm⟩⟩
  · cases hser : w.serialize encoder with
    | error what =>
      have hsave : save_state w store cfg.output_state encoder
          = ([.serialize encoder (.error what)], .error what) := by
        simp [save_state, h1, hser]
      rw [hsave]
      refine ⟨by simp [Event.conforms, h1, hser], tidy_singleton _, ?_⟩
      intro store' hs
      cases hs
    | ok odata =>
      cases hwr : w.write store odata cfg.output_state with
      | error what =>
        have hsave : save_state w store cfg.output_state encoder
            = ([.serialize encoder (.ok odata), .write odata cfg.output_state (.error what)],
                .error what) := by
          simp [save_state, h1, hser, hwr]
        rw [hsave]
        refine ⟨by simp [Event.conforms, h1, hser, hwr, Except.map],
          tidy_cons rfl rfl (tidy_singleton _), ?_⟩
        intro store' hs
        cases hs
      | ok store' =>
        have hsave : save_state w store cfg.output_state encoder
            = ([.serialize encoder (.ok odata), .write odata cfg.output_state (.ok ())],
                .ok store') := by
          simp [save_state, h1, hser, hwr]
        rw [hsave]
        refine ⟨by simp [Event.conforms, h1, hser, hwr, Except.map],
          tidy_cons rfl rfl (tidy_singleton _), ?_⟩
        intro store'' hs
        injection hs with hs
        subst hs
        refine ⟨?_, .inr ⟨h1, odata, rfl, hwr, rfl⟩⟩
        intro ev hev
        simp at hev
        rcases hev with rfl | rfl <;> rfl

/-- Every run of `session`: the calls logged conform to the source, a call that
threw or a checkpoint write is the last call, and the run either went through
the `catch` clause or ended with status 0 after `save_state` returned. -/
theorem session_sound (w : World R S E B St) (store : St) (program_name : String)
    (cfg : Config) (input_file : String) (fuel : Nat) (run : Run R S E B St)
    (h : session w store program_name cfg input_file fuel = some run) :
    ∃ body, (∀ ev ∈ body, ev.conforms w store cfg input_file) ∧ tidy body ∧
      ((∃ what, run = caught program_name body store what) ∨
        (∃ pre final, quiet pre ∧
          body = pre ++ (save_state w store cfg.output_state final).1 ∧
          (save_state w store cfg.output_state final).2 = .ok run.store ∧
          run = ⟨.exit EXIT_SUCCESS, body, run.store, some final⟩)) := by
  obtain ⟨ho1, ho2, ho3⟩ := open_input_sound w store cfg input_file
  unfold session at h
  rcases hopen : open_input w cfg.input_format input_file with ⟨t1, r1⟩
  rw [hopen] at h ho1 ho2 ho3
  cases r1 with
  | error what =>
    simp only [Option.some.injEq] at h
    exact ⟨t1, fun ev hev => (ho1 ev hev).1, tidy_of_length_le_one ho2, .inl ⟨what, h.symm⟩⟩
  | ok reader =>
    have hq1 : quiet t1 := ho3 reader rfl
    obtain ⟨hm1, hm2, hm3⟩ := make_encoder_sound w store cfg input_file reader
    rcases hmk : make_encoder w store cfg reader with ⟨t2, r2⟩
    rw [hmk] at hm1 hm2 hm3
    simp only [hmk] at h
    cases r2 with
    | error what =>
      simp only [Option.some.injEq] at h
      refine ⟨t1 ++ t2, ?_, tidy_append hq1 (tidy_of_length_le_one hm2), .inl ⟨what, h.symm⟩⟩
      intro ev hev
      rcases List.mem_append.mp hev with hev | hev
      · exact (ho1 ev hev).1
      · exact (hm1 ev hev).1
    | ok encoder =>
      have hq2 : quiet t2 := hm3 encoder rfl
      have hc12 : ∀ ev ∈ t1 ++ t2, ev.conforms w store cfg input_file := by
        intro ev hev
        rcases List.mem_append.mp hev with hev | hev
        · exact (ho1 ev hev).1
        · exact (hm1 ev hev).1
      simp only [] at h
      cases hpoll : w.get_next_frame reader with
      | error what =>
        simp only [hpoll, Option.some.injEq] at h
        refine ⟨t1 ++ t2 ++ [.get_next_frame reader (.error what)], ?_,
          tidy_append (quiet_append hq1 hq2) (tidy_singleton _), .inl ⟨what, h.symm⟩⟩
        intro ev hev
        rcases List.mem_append.mp hev with hev | hev
        · exact hc12 ev hev
        · simp at hev
          subst hev
          simp [Event.conforms, hpoll]
      | ok res =>
        obtain ⟨raster, reader'⟩ := res
        simp only [hpoll] at h
        cases hloop : encode_loop w cfg.ssim cfg.y_ac_qi fuel raster reader' encoder 0 with
        | none => simp [hloop] at h
        | some out =>
          obtain ⟨t3, r3⟩ := out
          obtain ⟨hl1, hl2, hl3⟩ := encode_loop_sound w store cfg input_file fuel raster
            reader' encoder 0 t3 r3 hloop
          have hcp : ∀ ev ∈ t1 ++ t2 ++ .get_next_frame reader (.ok (raster, reader')) :: t3,
              ev.conforms w store cfg input_file := by
            intro ev hev
            rcases List.mem_append.mp hev with hev | hev
            · exact hc12 ev hev
            · rcases List.mem_cons.mp hev with rfl | hev
              · simp [Event.conforms, hpoll]
              · exact (hl1 ev hev).1
          cases r3 with
          | error what =>
            simp only [hloop, Option.some.injEq] at h
            exact ⟨_, hcp, tidy_append (quiet_append hq1 hq2) (tidy_cons rfl rfl hl2),
              .inl ⟨what, h.symm⟩⟩
          | ok encoder' =>
            have hq3 : quiet (t1 ++ t2 ++ .get_next_frame reader (.ok (raster, reader')) :: t3) :=
              quiet_append (quiet_append hq1 hq2) (quiet_cons rfl rfl (hl3 encoder' rfl))
            simp only [hloop] at h
            obtain ⟨hs1, hs2, hs3⟩ := save_state_sound w store cfg input_file encoder'
            rcases hsave : save_state w store cfg.output_state encoder' with ⟨t4, r4⟩
            rw [hsave] at hs1 hs2 hs3
            simp only [hsave] at h
            have hc4 : ∀ ev ∈ t1 ++ t2 ++ .get_next_frame reader (.ok (raster, reader')) ::
                t3 ++ t4, ev.conforms w store cfg input_file := by
              intro ev hev
              rcases List.mem_append.mp hev with hev | hev
              · exact hcp ev hev
              · exact hs1 ev hev
            cases r4 with
            | error what =>
              simp only [Option.some.injEq] at h
              exact ⟨_, hc4, tidy_append hq3 hs2, .inl ⟨what, h.symm⟩⟩
            | ok store' =>
              simp only [Option.some.injEq] at h
              subst h
              refine ⟨_, hc4, tidy_append hq3 hs2, .inr ⟨_, encoder', hq3, ?_, ?_, rfl⟩⟩
              · rw [hsave]
              · rw [hsave]

/-! ## Every run of `main` -/

theorem encode_loop_terminates (w : World R S E B St) (ssim : Double) (y_ac_qi : Nat) :
    ∀ (fuel : Nat) (reader reader' : S) (raster : Option R) (encoder : E) (frame_index : Nat),
      ends_within w fuel reader → w.get_next_frame reader = .ok (raster, reader') →
      ∃ out, encode_loop w ssim y_ac_qi fuel raster reader' encoder frame_index = some out := by
  intro fuel
  induction fuel with
  | zero =>
    intro reader reader' raster encoder frame_index hend hpoll
    cases raster with
    | none => exact ⟨_, encode_loop_none w ssim y_ac_qi 0 reader' encoder frame_index⟩
    | some x => simp [ends_within, hpoll] at hend
  | succ fuel ih =>
    intro reader reader' raster encoder frame_index hend hpoll
    cases raster with
    | none => exact ⟨_, encode_loop_none w ssim y_ac_qi _ reader' encoder frame_index⟩
    | some x =>
      simp only [ends_within, hpoll] at hend
      rw [encode_loop]
      cases henc : w.encode encoder x ssim y_ac_qi with
      | error what => exact ⟨_, rfl⟩
      | ok out =>
        obtain ⟨score, encoder'⟩ := out
        cases hpoll' : w.get_next_frame reader' with
        | error what => exact ⟨_, rfl⟩
        | ok res =>
          obtain ⟨raster', reader''⟩ := res
          obtain ⟨out, hout⟩ := ih reader' reader'' raster' encoder' (frame_index + 1) hend hpoll'
          simp only [hout]
          exact ⟨_, rfl⟩

theorem session_terminates (w : World R S E B St) (store : St) (program_name : String)
    (cfg : Config) (input_file : String) (fuel : Nat)
    (hbound : ∀ reader, (open_input w cfg.input_format input_file).2 = .ok reader →
      ends_within w fuel reader) :
    ∃ run, session w store program_name cfg input_file fuel = some run := by
  unfold session
  rcases hopen : open_input w cfg.input_format input_file with ⟨t1, r1⟩
  rw [hopen] at hbound
  cases r1 with
  | error what => exact ⟨_, rfl⟩
  | ok reader =>
    have hend := hbound reader rfl
    simp only []
    rcases hmk : make_encoder w store cfg reader with ⟨t2, r2⟩
    cases r2 with
    | error what =>
      simp only []
      exact ⟨_, rfl⟩
    | ok encoder =>
      simp only []
      cases hpoll : w.get_next_frame reader with
      | error what =>
        simp only []
        exact ⟨_, rfl⟩
      | ok res =>
        obtain ⟨raster, reader'⟩ := res
        obtain ⟨out, hout⟩ := encode_loop_terminates w cfg.ssim cfg.y_ac_qi fuel reader reader'
          raster encoder 0 hend hpoll
        obtain ⟨t3, r3⟩ := out
        simp only [hout]
        cases r3 with
        | error what =>
          simp only []
          exact ⟨_, rfl⟩
        | ok encoder' =>
          simp only []
          rcases hsave : save_state w store cfg.output_state encoder' with ⟨t4, r4⟩
          cases r4 with
          | error what =>
            simp only []
            exact ⟨_, rfl⟩
          | ok store' =>
            simp only []
            exact ⟨_, rfl⟩

/-- With a source that ends within `fuel` frames, `main` ends. -/
theorem main_terminates (w : World R S E B St) (store : St) (argv : List String) (fuel : Nat)
    (hbound : ∀ program_name cfg input_file reader,
      parse_args w argv = .ready program_name cfg input_file →
      (open_input w cfg.input_format input_file).2 = .ok reader → ends_within w fuel reader) :
    ∃ run, main w store argv fuel = some run := by
  unfold main
  cases hp : parse_args w argv with
  | abort => exact ⟨_, rfl⟩
  | usage p => exact ⟨_, rfl⟩
  | threw p what => exact ⟨_, rfl⟩
  | ready p cfg f =>
    simp only []
    exact session_terminates w store p cfg f fuel (fun reader hr => hbound p cfg f reader hp hr)

theorem yields_ends_within (w : World R S E B St) :
    ∀ (xs : List R) (reader : S) (n : Nat), yields w reader xs → xs.length ≤ n →
      ends_within w n reader := by
  intro xs
  induction xs with
  | nil =>
    intro reader n hy _
    unfold yields at hy
    cases n with
    | zero =>
      unfold ends_within
      split at hy
      · simp_all
      · exact absurd hy id
    | succ n =>
      unfold ends_within
      split at hy
      · simp_all
      · exact absurd hy id
  | cons x xs ih =>
    intro reader n hy hn
    unfold yields at hy
    cases n with
    | zero => simp at hn
    | succ n =>
      unfold ends_within
      split at hy
      · rename_i y reader' heq
        exact ih reader' n hy.2 (by simpa using hn)
      · exact absurd hy id

theorem encode_loop_succ (w : World R S E B St) (ssim : Double) (y_ac_qi : Nat) :
    ∀ (fuel : Nat) (raster : Option R) (reader : S) (encoder : E) (frame_index : Nat)
      (out : List (Event R S E B) × Except String E),
      encode_loop w ssim y_ac_qi fuel raster reader encoder frame_index = some out →
      encode_loop w ssim y_ac_qi (fuel + 1) raster reader encoder frame_index = some out := by
  intro fuel
  induction fuel with
  | zero =>
    intro raster reader encoder frame_index out h
    cases raster with
    | none =>
      rw [encode_loop_none] at h ⊢
      exact h
    | some x => simp [encode_loop] at h
  | succ fuel ih =>
    intro raster reader encoder frame_index out h
    cases raster with
    | none =>
      rw [encode_loop_none] at h ⊢
      exact h
    | some x =>
      rw [encode_loop] at h ⊢
      cases henc : w.encode encoder x ssim y_ac_qi with
      | error what =>
        simp only [henc] at h ⊢
        exact h
      | ok res =>
        obtain ⟨score, encoder'⟩ := res
        simp only [henc] at h ⊢
        cases hpoll : w.get_next_frame reader with
        | error what =>
          simp only [hpoll] at h ⊢
          exact h
        | ok res =>
          obtain ⟨raster', reader'⟩ := res
          simp only [hpoll] at h ⊢
          cases hrec : encode_loop w ssim y_ac_qi fuel raster' reader' encoder'
              (frame_index + 1) with
          | none => simp [hrec] at h
          | some out' =>
            rw [hrec] at h
            rw [ih raster' reader' encoder' (frame_index + 1) out' hrec]
            exact h

/-- A run that is over within `fuel` loop iterations is the same run with more
fuel. -/
theorem main_fuel_mono (w : World R S E B St) (store : St) (argv : List String)
    (fuel fuel' : Nat) (run : Run R S E B St) (h : main w store argv fuel = some run)
    (hle : fuel ≤ fuel') : main w store argv fuel' = some run := by
  induction hle with
  | refl => exact h
  | step _ ih =>
    rename_i m _
    unfold main at ih ⊢
    cases hp : parse_args w argv with
    | abort =>
      rw [hp] at ih
      exact ih
    | usage p =>
      rw [hp] at ih
      exact ih
    | threw p what =>
      rw [hp] at ih
      exact ih
    | ready p cfg f =>
      rw [hp] at ih
      simp only [] at ih ⊢
      unfold session at ih ⊢
      rcases ho : open_input w cfg.input_format f with ⟨t1, r1⟩
      rw [ho] at ih
      cases r1 with
      | error what => exact ih
      | ok reader =>
        simp only [] at ih ⊢
        rcases hm : make_encoder w store cfg reader with ⟨t2, r2⟩
        rw [hm] at ih
        cases r2 with
        | error what => exact ih
        | ok encoder =>
          simp only [] at ih ⊢
          cases hpoll : w.get_next_frame reader with
          | error what =>
            simp only [hpoll] at ih ⊢
            exact ih
          | ok res =>
            obtain ⟨raster, reader'⟩ := res
            simp only [hpoll] at ih ⊢
            cases hloop : encode_loop w cfg.ssim cfg.y_ac_qi m raster reader' encoder 0 with
            | none => simp [hloop] at ih
            | some out =>
              rw [hloop] at ih
              rw [encode_loop_succ w cfg.ssim cfg.y_ac_qi m raster reader' encoder 0 out hloop]
              exact ih

/-! ## What each phase contributes to the readings of a log -/

theorem open_input_readings (w : World R S E B St) (input_format input_file : String) :
    encode_calls (open_input w input_format input_file).1 = [] ∧
      reports (open_input w input_format input_file).1 = [] ∧
      polls (open_input w input_format input_file).1 = [] ∧
      serialize_calls (open_input w input_format input_file).1 = [] ∧
      write_calls (open_input w input_format input_file).1 = [] ∧
      usage_texts (open_input w input_format input_file).1 = [] := by
  unfold open_input
  split_ifs <;>
    simp [encode_calls, reports, polls, serialize_calls, write_calls, usage_texts,
      Event.encode_call?, Event.report?, Event.poll?, Event.serialize_call?,
      Event.write_call?, Event.usage?]

theorem open_input_reader_calls (w : World R S E B St) (input_format input_file : String)
    (reader : S) (h : (open_input w input_format input_file).2 = .ok reader) :
    reader_calls (open_input w input_format input_file).1 = [.ok reader] := by
  unfold open_input at h ⊢
  split_ifs at h ⊢ <;> simp_all [reader_calls, Event.reader?]

theorem make_encoder_readings (w : World R S E B St) (store : St) (cfg : Config) (reader : S) :
    encode_calls (make_encoder w store cfg reader).1 = [] ∧
      reports (make_encoder w store cfg reader).1 = [] ∧
      polls (make_encoder w store cfg reader).1 = [] ∧
      serialize_calls (make_encoder w store cfg reader).1 = [] ∧
      write_calls (make_encoder w store cfg reader).1 = [] ∧
      usage_texts (make_encoder w store cfg reader).1 = [] ∧
      reader_calls (make_encoder w store cfg reader).1 = [] := by
  unfold make_encoder
  split_ifs <;>
    simp [encode_calls, reports, polls, serialize_calls, write_calls, usage_texts,
      reader_calls, Event.encode_call?, Event.report?, Event.poll?, Event.serialize_call?,
      Event.write_call?, Event.usage?, Event.reader?]

theorem save_state_readings (w : World R S E B St) (store : St) (output_state : String)
    (encoder : E) :
    encode_calls (save_state w store output_state encoder).1 = [] ∧
      reports (save_state w store output_state encoder).1 = [] ∧
      polls (save_state w store output_state encoder).1 = [] ∧
      usage_texts (save_state w store output_state encoder).1 = [] ∧
      reader_calls (save_state w store output_state encoder).1 = [] := by
  unfold save_state
  split_ifs
  · cases hser : w.serialize encoder with
    | error what =>
      simp [encode_calls, reports, polls, usage_texts, reader_calls, Event.encode_call?,
        Event.report?, Event.poll?, Event.usage?, Event.reader?]
    | ok odata =>
      cases hwr : w.write store odata output_state <;>
        simp [hwr, encode_calls, reports, polls, usage_texts, reader_calls,
          Event.encode_call?, Event.report?, Event.poll?, Event.usage?, Event.reader?]
  · simp [encode_calls, reports, polls, usage_texts, reader_calls]

theorem in_loop_readings {events : List (Event R S E B)}
    (h : ∀ ev ∈ events, ev.in_loop = true) :
    serialize_calls events = [] ∧ write_calls events = [] ∧ usage_texts events = [] ∧
      reader_calls events = [] := by
  unfold serialize_calls write_calls usage_texts reader_calls
  simp only [List.filterMap_eq_nil_iff]
  refine ⟨?_, ?_, ?_, ?_⟩ <;>
  · intro ev hev
    have := h ev hev
    cases ev <;> simp_all [Event.in_loop, Event.serialize_call?, Event.write_call?,
      Event.usage?, Event.reader?]

/-- The run of `session` when the reader and the encoder are constructed, the
source yields `xs` and every `encode` returns: the log is that of the two
constructions, of the polls and encode calls `mid`, and of `save_state`. -/
theorem session_complete (w : World R S E B St) (store : St) (program_name : String)
    (cfg : Config) (input_file : String) (fuel : Nat) (reader : S) (encoder final : E)
    (xs : List R)
    (hopen : (open_input w cfg.input_format input_file).2 = .ok reader)
    (hmake : (make_encoder w store cfg reader).2 = .ok encoder)
    (hsrc : yields w reader xs)
    (hall : encode_all w cfg.ssim cfg.y_ac_qi encoder xs = .ok final)
    (hfuel : xs.length ≤ fuel) :
    ∃ mid, (∀ ev ∈ mid, ev.in_loop = true) ∧
      (encode_calls mid).map EncodeCall.raster = xs ∧
      chained encoder (encode_calls mid) final ∧
      reports mid = (scores (encode_calls mid)).enum ∧
      (polls mid).length = xs.length + 1 ∧
      poll_frames mid = xs.map (fun x => .ok (some x)) ++ [.ok none] ∧
      session w store program_name cfg input_file fuel = some
        (match (save_state w store cfg.output_state final).2 with
        | .ok store' => ⟨.exit EXIT_SUCCESS,
            (open_input w cfg.input_format input_file).1 ++ (make_encoder w store cfg reader).1
              ++ mid ++ (save_state w store cfg.output_state final).1, store', some final⟩
        | .error what => caught program_name
            ((open_input w cfg.input_format input_file).1 ++ (make_encoder w store cfg reader).1
              ++ mid ++ (save_state w store cfg.output_state final).1) store what) := by
  unfold session
  rcases ho : open_input w cfg.input_format input_file with ⟨t1, r1⟩
  rw [ho] at hopen
  dsimp only at hopen
  subst hopen
  simp only []
  rcases hm : make_encoder w store cfg reader with ⟨t2, r2⟩
  rw [hm] at hmake
  dsimp only at hmake
  subst hmake
  simp only []
  cases xs with
  | nil =>
    unfold yields at hsrc
    cases hpoll : w.get_next_frame reader with
    | error what => simp [hpoll] at hsrc
    | ok res =>
      obtain ⟨raster, reader'⟩ := res
      cases raster with
      | some y => simp [hpoll] at hsrc
      | none =>
        simp only [encode_all] at hall
        injection hall with hall
        subst hall
        refine ⟨[.get_next_frame reader (.ok (none, reader'))], ?_, ?_, ?_, ?_, ?_, ?_, ?_⟩
        · simp [Event.in_loop]
        · simp [encode_calls, Event.encode_call?]
        · simp [encode_calls, Event.encode_call?, chained]
        · simp [encode_calls, Event.encode_call?, reports, Event.report?, scores]
        · simp [polls, Event.poll?]
        · simp [poll_frames, polls, Event.poll?]
        · simp only [encode_loop_none]
          rcases hsave : save_state w store cfg.output_state encoder with ⟨t4, r4⟩
          cases r4 <;> simp
  | cons x xs =>
    unfold yields at hsrc
    cases hpoll : w.get_next_frame reader with
    | error what => simp [hpoll] at hsrc
    | ok res =>
      obtain ⟨raster, reader'⟩ := res
      cases raster with
      | none => simp [hpoll] at hsrc
      | some y =>
        simp only [hpoll] at hsrc
        obtain ⟨rfl, hsrc⟩ := hsrc
        obtain ⟨events, hrun, hr, hc, hrep, hp, hpf⟩ := encode_loop_complete w cfg.ssim cfg.y_ac_qi
          xs fuel y reader' encoder 0 final hsrc hall (by simpa using hfuel)
        obtain ⟨hin, _, _⟩ := encode_loop_sound w store cfg input_file fuel (some y) reader'
          encoder 0 events (.ok final) hrun
        refine ⟨.get_next_frame reader (.ok (some y, reader')) :: events,
          ?_, ?_, ?_, ?_, ?_, ?_, ?_⟩
        · intro ev hev
          rcases List.mem_cons.mp hev with rfl | hev
          · rfl
          · exact (hin ev hev).2
        · simpa [encode_calls, Event.encode_call?] using hr
        · simpa [encode_calls, Event.encode_call?] using hc
        · simpa [encode_calls, Event.encode_call?, reports, Event.report?, List.enum] using hrep
        · simpa [polls, Event.poll?] using hp
        · simpa [poll_frames, polls, Event.poll?] using hpf
        · simp only [hrun]
          rcases hsave : save_state w store cfg.output_state final with ⟨t4, r4⟩
          cases r4 <;> simp

/-! ## Reading the log of a whole run -/

theorem main_ready (w : World R S E B St) (store : St) (argv : List String) (fuel : Nat)
    (program_name : String) (cfg : Config) (input_file : String)
    (hparse : parse_args w argv = .ready program_name cfg input_file) :
    main w store argv fuel = session w store program_name cfg input_file fuel := by
  unfold main
  rw [hparse]

theorem readings_caught (program_name : String) (body : List (Event R S E B)) (store : St)
    (what : String) :
    encode_calls (caught program_name body store what).trace = encode_calls body ∧
      reports (caught program_name body store what).trace = reports body ∧
      polls (caught program_name body store what).trace = polls body ∧
      serialize_calls (caught program_name body store what).trace = serialize_calls body ∧
      write_calls (caught program_name body store what).trace = write_calls body ∧
      usage_texts (caught program_name body store what).trace = usage_texts body ∧
      reader_calls (caught program_name body store what).trace = reader_calls body := by
  simp [caught, encode_calls, reports, polls, serialize_calls, write_calls, usage_texts,
    reader_calls, Event.encode_call?, Event.report?, Event.poll?, Event.serialize_call?,
    Event.write_call?, Event.usage?, Event.reader?]

theorem readings_session (w : World R S E B St) (store : St) (cfg : Config)
    (input_file : String) (reader : S) (final : E) (mid : List (Event R S E B)) :
    encode_calls ((open_input w cfg.input_format input_file).1 ++
        (make_encoder w store cfg reader).1 ++ mid ++
        (save_state w store cfg.output_state final).1) = encode_calls mid ∧
      reports ((open_input w cfg.input_format input_file).1 ++
        (make_encoder w store cfg reader).1 ++ mid ++
        (save_state w store cfg.output_state final).1) = reports mid ∧
      polls ((open_input w cfg.input_format input_file).1 ++
        (make_encoder w store cfg reader).1 ++ mid ++
        (save_state w store cfg.output_state final).1) = polls mid := by
  obtain ⟨a1, a2, a3, _⟩ := open_input_readings w cfg.input_format input_file
  obtain ⟨b1, b2, b3, _⟩ := make_encoder_readings w store cfg reader
  obtain ⟨c1, c2, c3, _⟩ := save_state_readings w store cfg.output_state final
  unfold encode_calls reports polls at *
  simp only [List.filterMap_append, a1, a2, a3, b1, b2, b3, c1, c2, c3, List.nil_append,
    List.append_nil, and_self]

/-- The `encode` calls of any finished run carry the parsed `ssim` and
`y_ac_qi`, and log what the encoder returned. -/
theorem run_encode_calls (w : World R S E B St) (store : St) (argv : List String) (fuel : Nat)
    (program_name : String) (cfg : Config) (input_file : String) (run : Run R S E B St)
    (hparse : parse_args w argv = .ready program_name cfg input_file)
    (h : main w store argv fuel = some run) :
    ∀ c ∈ encode_calls run.trace, c.ssim = cfg.ssim ∧ c.y_ac_qi = cfg.y_ac_qi ∧
      c.result = w.encode c.encoder c.raster c.ssim c.y_ac_qi := by
  rw [main_ready w store argv fuel program_name cfg input_file hparse] at h
  obtain ⟨body, hconf, _, hres⟩ := session_sound w store program_name cfg input_file fuel run h
  have hbody : ∀ c ∈ encode_calls body, c.ssim = cfg.ssim ∧ c.y_ac_qi = cfg.y_ac_qi ∧
      c.result = w.encode c.encoder c.raster c.ssim c.y_ac_qi := by
    intro c hc
    unfold encode_calls at hc
    obtain ⟨ev, hev, hec⟩ := List.mem_filterMap.mp hc
    have := hconf ev hev
    cases ev <;> simp_all [Event.encode_call?, Event.conforms]
    subst hec
    simp [this]
  rcases hres with ⟨what, rfl⟩ | ⟨pre, final, _, _, _, hrun⟩
  · rw [(readings_caught program_name body store what).1]
    exact hbody
  · rw [hrun]
    exact hbody

theorem scores_length_of_chained :
    ∀ (calls : List (EncodeCall R E)) (encoder final : E), chained encoder calls final →
      (scores calls).length = calls.length := by
  intro calls
  induction calls with
  | nil =>
    intro encoder final _
    rfl
  | cons c rest ih =>
    intro encoder final hc
    unfold chained at hc
    obtain ⟨_, hc⟩ := hc
    cases hres : c.result with
    | error what => simp [hres] at hc
    | ok out =>
      obtain ⟨score, encoder'⟩ := out
      simp only [hres] at hc
      have := ih encoder' final hc
      unfold scores at this ⊢
      simp only [List.filterMap_cons, hres, List.length_cons, this]

/-- C1. When option parsing leaves `cfg` and `input_file`, the reader and the
encoder (fresh or rebuilt from a checkpoint) are constructed, the source
yields the `n` frames `xs` and then signals the end, and the `n` calls of
`encode` return, then with `n` units of fuel `main` ends with a log in which:
`encode` is called on exactly the frames `xs`, in order; the first call acts
on the constructed encoder and each later call on the encoder the call before
it returned; every call logs what the encoder returned; there are `n` reports,
which are the scores of these calls in order, numbered from 0; and
`get_next_frame` is called `n + 1` times, the first `n` calls delivering the
frames `xs` and the last one the end of the sequence. -/
theorem each_frame_encoded_once (w : World R S E B St) (store : St) (argv : List String)
    (fuel : Nat) (program_name : String) (cfg : Config) (input_file : String) (reader : S)
    (encoder final : E) (xs : List R)
    (hparse : parse_args w argv = .ready program_name cfg input_file)
    (hopen : (open_input w cfg.input_format input_file).2 = .ok reader)
    (hmake : (make_encoder w store cfg reader).2 = .ok encoder)
    (hsrc : yields w reader xs)
    (hall : encode_all w cfg.ssim cfg.y_ac_qi encoder xs = .ok final)
    (hfuel : xs.length ≤ fuel) :
    ∃ run, main w store argv fuel = some run ∧
      (encode_calls run.trace).map EncodeCall.raster = xs ∧
      chained encoder (encode_calls run.trace) final ∧
      (∀ c ∈ encode_calls run.trace,
        c.result = w.encode c.encoder c.raster c.ssim c.y_ac_qi) ∧
      reports run.trace = (scores (encode_calls run.trace)).enum ∧
      (reports run.trace).length = xs.length ∧
      (polls run.trace).length = xs.length + 1 ∧
      poll_frames run.trace = xs.map (fun x => .ok (some x)) ++ [.ok none] := by
  obtain ⟨mid, _, hr, hc, hrep, hp, hpf, hrun⟩ := session_complete w store program_name cfg
    input_file fuel reader encoder final xs hopen hmake hsrc hall hfuel
  have hrl : (reports mid).length = xs.length := by
    rw [hrep, List.enum_length, scores_length_of_chained _ encoder final hc, ← hr,
      List.length_map]
  obtain ⟨e1, e2, e3⟩ := readings_session w store cfg input_file reader final mid
  rw [← main_ready w store argv fuel program_name cfg input_file hparse] at hrun
  refine ⟨_, hrun, ?_⟩
  have hfaith := run_encode_calls w store argv fuel program_name cfg input_file _ hparse hrun
  have hpf' : ∀ trace : List (Event R S E B), polls trace = polls mid →
      poll_frames trace = xs.map (fun x => .ok (some x)) ++ [.ok none] := by
    intro trace h
    unfold poll_frames at hpf ⊢
    rw [h]
    exact hpf
  refine ⟨?_, ?_, fun c hc => (hfaith c hc).2.2, ?_, ?_, ?_, ?_⟩ <;>
  · cases (save_state w store cfg.output_state final).2 with
    | error what =>
      simp only []
      obtain ⟨f1, f2, f3, _⟩ := readings_caught program_name
        ((open_input w cfg.input_format input_file).1 ++ (make_encoder w store cfg reader).1
          ++ mid ++ (save_state w store cfg.output_state final).1) store what
      first
      | exact hpf' _ (f3.trans e3)
      | (simp only [f1, f2, f3, e1, e2, e3]
         first | exact hr | exact hc | exact hrep | exact hrl | exact hp)
    | ok store' =>
      first
      | exact hpf' _ e3
      | (simp only [e1, e2, e3]
         first | exact hr | exact hc | exact hrep | exact hrl | exact hp)

/-- C1 at `xc-enc two.ivf` in the concrete world, a fresh session over two
frames with two units of fuel. -/
theorem each_frame_encoded_once_witness :
    ∃ run, main demo [] ["xc-enc", "two.ivf"] 2 = some run ∧
      (encode_calls run.trace).map EncodeCall.raster = [1, 2] ∧
      chained ⟨"output.ivf", false, 16, 8, 0, 0⟩ (encode_calls run.trace)
        ⟨"output.ivf", false, 16, 8, 2, 33⟩ ∧
      (∀ c ∈ encode_calls run.trace,
        c.result = demo.encode c.encoder c.raster c.ssim c.y_ac_qi) ∧
      reports run.trace = (scores (encode_calls run.trace)).enum ∧
      (reports run.trace).length = 2 ∧
      (polls run.trace).length = 3 ∧
      poll_frames run.trace = [.ok (some 1), .ok (some 2), .ok none] :=
  each_frame_encoded_once demo [] ["xc-enc", "two.ivf"] 2 "xc-enc" Config.initial "two.ivf"
    ⟨16, 8, [1, 2]⟩ ⟨"output.ivf", false, 16, 8, 0, 0⟩ ⟨"output.ivf", false, 16, 8, 2, 33⟩
    [1, 2] rfl rfl rfl ⟨rfl, rfl, trivial⟩ rfl (by decide)

/-! ## Option parsing -/

/-- What one pass through the `switch` does to the option variables. -/
theorem apply_option_cases (w : World R S E B St) (cfg cfg' : Config) (opt : Char)
    (optarg : String) (h : apply_option w cfg opt optarg = .ok cfg') :
    (opt = 'o' ∧ cfg' = { cfg with output_file := optarg }) ∨
    (opt = 's' ∧ ∃ v, w.stod optarg = .ok v ∧ cfg' = { cfg with ssim := v }) ∨
    (opt = 'i' ∧ cfg' = { cfg with input_format := optarg }) ∨
    (opt = 'O' ∧ cfg' = { cfg with output_state := optarg }) ∨
    (opt = 'I' ∧ cfg' = { cfg with input_state := optarg }) ∨
    (opt = '2' ∧ cfg' = { cfg with two_pass := true }) ∨
    (opt = 'y' ∧ ∃ v, w.stoul optarg = .ok v ∧ cfg' = { cfg with y_ac_qi := v.val }) := by
  unfold apply_option at h
  split_ifs at h with h1 h2 h3 h4 h5 h6 h7
  · injection h with h
    exact .inl ⟨h1, h.symm⟩
  · cases hs : w.stod optarg with
    | error what => simp [hs] at h
    | ok v =>
      simp only [hs] at h
      injection h with h
      exact .inr (.inl ⟨h2, v, rfl, h.symm⟩)
  · injection h with h
    exact .inr (.inr (.inl ⟨h3, h.symm⟩))
  · injection h with h
    exact .inr (.inr (.inr (.inl ⟨h4, h.symm⟩)))
  · injection h with h
    exact .inr (.inr (.inr (.inr (.inl ⟨h5, h.symm⟩))))
  · injection h with h
    exact .inr (.inr (.inr (.inr (.inr (.inl ⟨h6, h.symm⟩)))))
  · cases hs : w.stoul optarg with
    | error what => simp [hs] at h
    | ok v =>
      simp only [hs] at h
      injection h with h
      exact .inr (.inr (.inr (.inr (.inr (.inr ⟨h7, v, rfl, h.symm⟩)))))

/-- One pass through the `switch`, setting by setting. -/
theorem apply_option_fields (w : World R S E B St) (cfg cfg' : Config) (opt : Char)
    (optarg : String) (h : apply_option w cfg opt optarg = .ok cfg') :
    cfg'.output_file = (if opt = 'o' then optarg else cfg.output_file) ∧
    cfg'.input_format = (if opt = 'i' then optarg else cfg.input_format) ∧
    cfg'.output_state = (if opt = 'O' then optarg else cfg.output_state) ∧
    cfg'.input_state = (if opt = 'I' then optarg else cfg.input_state) ∧
    cfg'.two_pass = (cfg.two_pass || decide (opt = '2')) ∧
    (if opt = 's' then w.stod optarg = .ok cfg'.ssim else cfg'.ssim = cfg.ssim) ∧
    (if opt = 'y' then ∃ v, w.stoul optarg = .ok v ∧ cfg'.y_ac_qi = v.val
      else cfg'.y_ac_qi = cfg.y_ac_qi) := by
  rcases apply_option_cases w cfg cfg' opt optarg h with ⟨rfl, rfl⟩ | ⟨rfl, v, hv, rfl⟩ |
    ⟨rfl, rfl⟩ | ⟨rfl, rfl⟩ | ⟨rfl, rfl⟩ | ⟨rfl, rfl⟩ | ⟨rfl, v, hv, rfl⟩
  · simp
  · simp [hv]
  · simp
  · simp
  · simp
  · simp
  · simp [hv]

/-- After the option loop every option variable holds the argument of the last
occurrence of its own option, or its value from before the loop. -/
theorem parse_options_last (w : World R S E B St) :
    ∀ (opts : List (Char × String)) (cfg0 cfg : Config),
      parse_options w opts cfg0 = .ok cfg →
      cfg.output_file = (last_arg 'o' opts).getD cfg0.output_file ∧
      cfg.input_format = (last_arg 'i' opts).getD cfg0.input_format ∧
      cfg.output_state = (last_arg 'O' opts).getD cfg0.output_state ∧
      cfg.input_state = (last_arg 'I' opts).getD cfg0.input_state ∧
      cfg.two_pass = (cfg0.two_pass || opts.any (fun o => decide (o.1 = '2'))) ∧
      (match last_arg 's' opts with
        | none => cfg.ssim = cfg0.ssim
        | some a => w.stod a = .ok cfg.ssim) ∧
      (match last_arg 'y' opts with
        | none => cfg.y_ac_qi = cfg0.y_ac_qi
        | some a => ∃ v, w.stoul a = .ok v ∧ cfg.y_ac_qi = v.val) := by
  intro opts
  induction opts with
  | nil =>
    intro cfg0 cfg h
    simp only [parse_options] at h
    injection h with h
    subst h
    simp [last_arg]
  | cons o rest ih =>
    intro cfg0 cfg h
    obtain ⟨opt, optarg⟩ := o
    simp only [parse_options] at h
    cases ha : apply_option w cfg0 opt optarg with
    | error what => simp [ha] at h
    | ok cfg1 =>
      simp only [ha] at h
      obtain ⟨i1, i2, i3, i4, i5, i6, i7⟩ := ih cfg1 cfg h
      obtain ⟨s1, s2, s3, s4, s5, s6, s7⟩ := apply_option_fields w cfg0 cfg1 opt optarg ha
      simp only [last_arg]
      refine ⟨?_, ?_, ?_, ?_, ?_, ?_, ?_⟩
      · rw [i1, s1]
        cases last_arg 'o' rest with
        | some a => rfl
        | none => by_cases hc : opt = 'o' <;> simp [hc]
      · rw [i2, s2]
        cases last_arg 'i' rest with
        | some a => rfl
        | none => by_cases hc : opt = 'i' <;> simp [hc]
      · rw [i3, s3]
        cases last_arg 'O' rest with
        | some a => rfl
        | none => by_cases hc : opt = 'O' <;> simp [hc]
      · rw [i4, s4]
        cases last_arg 'I' rest with
        | some a => rfl
        | none => by_cases hc : opt = 'I' <;> simp [hc]
      · rw [i5, s5]
        simp [List.any_cons, Bool.or_assoc]
      · cases hl : last_arg 's' rest with
        | some a =>
          rw [hl] at i6
          exact i6
        | none =>
          rw [hl] at i6
          by_cases hc : opt = 's'
          · simp only [hc, if_true] at s6 ⊢
            rw [i6]
            exact s6
          · simp only [hc, if_false] at s6 ⊢
            rw [i6]
            exact s6
      · cases hl : last_arg 'y' rest with
        | some a =>
          rw [hl] at i7
          exact i7
        | none =>
          rw [hl] at i7
          by_cases hc : opt = 'y'
          · simp only [hc, if_true] at s7 ⊢
            rw [i7]
            exact s7
          · simp only [hc, if_false] at s7 ⊢
            rw [i7]
            exact s7

/-! ## The construction of the encoder -/

theorem encode_loop_first_call (w : World R S E B St) (ssim : Double) (y_ac_qi : Nat)
    (fuel : Nat) (raster : Option R) (reader : S) (encoder : E) (frame_index : Nat)
    (events : List (Event R S E B)) (result : Except String E)
    (h : encode_loop w ssim y_ac_qi fuel raster reader encoder frame_index
      = some (events, result)) :
    ∀ c, (encode_calls events).head? = some c → c.encoder = encoder := by
  intro c hc
  cases raster with
  | none =>
    rw [encode_loop_none] at h
    injection h with h
    injection h with h1 h2
    subst h1
    simp [encode_calls] at hc
  | some x =>
    cases fuel with
    | zero => simp [encode_loop] at h
    | succ fuel =>
      rw [encode_loop] at h
      cases henc : w.encode encoder x ssim y_ac_qi with
      | error what =>
        simp only [henc] at h
        injection h with h
        injection h with h1 h2
        subst h1
        simp [encode_calls, Event.encode_call?] at hc
        rw [← hc]
      | ok out =>
        obtain ⟨score, encoder'⟩ := out
        simp only [henc] at h
        cases hpoll : w.get_next_frame reader with
        | error what =>
          simp only [hpoll] at h
          injection h with h
          injection h with h1 h2
          subst h1
          simp [encode_calls, Event.encode_call?] at hc
          rw [← hc]
        | ok res =>
          obtain ⟨raster', reader'⟩ := res
          simp only [hpoll] at h
          cases hrec : encode_loop w ssim y_ac_qi fuel raster' reader' encoder'
              (frame_index + 1) with
          | none => simp [hrec] at h
          | some out =>
            obtain ⟨events', result'⟩ := out
            simp only [hrec] at h
            injection h with h
            injection h with h1 h2
            subst h1
            simp [encode_calls, Event.encode_call?] at hc
            rw [← hc]

theorem in_loop_not_construction {events : List (Event R S E B)}
    (h : ∀ ev ∈ events, ev.in_loop = true) : ∀ ev ∈ events, ev.is_construction = false := by
  intro ev hev
  have := h ev hev
  cases ev <;> simp_all [Event.in_loop, Event.is_construction]

theorem save_state_not_construction (w : World R S E B St) (store : St)
    (output_state : String) (encoder : E) :
    ∀ ev ∈ (save_state w store output_state encoder).1, ev.is_construction = false := by
  unfold save_state
  split_ifs
  · cases hser : w.serialize encoder with
    | error what => simp [Event.is_construction]
    | ok odata =>
      cases hwr : w.write store odata output_state <;> simp [hwr, Event.is_construction]
  · simp

/-- Every run of `session` whose reader is constructed: the log starts with the
construction of the reader and that of the encoder, no later entry constructs
an encoder, and the first `encode` acts on the encoder constructed. -/
theorem session_prefix (w : World R S E B St) (store : St) (program_name : String)
    (cfg : Config) (input_file : String) (fuel : Nat) (reader : S) (run : Run R S E B St)
    (hopen : (open_input w cfg.input_format input_file).2 = .ok reader)
    (h : session w store program_name cfg input_file fuel = some run) :
    ∃ rest, run.trace = (open_input w cfg.input_format input_file).1 ++
        (make_encoder w store cfg reader).1 ++ rest ∧
      (∀ ev ∈ rest, ev.is_construction = false) ∧
      (∀ c, (encode_calls rest).head? = some c →
        (make_encoder w store cfg reader).2 = .ok c.encoder) := by
  unfold session at h
  rcases ho : open_input w cfg.input_format input_file with ⟨t1, r1⟩
  rw [ho] at hopen h
  dsimp only at hopen
  subst hopen
  simp only [] at h
  rcases hm : make_encoder w store cfg reader with ⟨t2, r2⟩
  rw [hm] at h
  cases r2 with
  | error what =>
    simp only [Option.some.injEq] at h
    subst h
    refine ⟨[.print_exception program_name what], by simp [caught], ?_, ?_⟩
    · simp [Event.is_construction]
    · simp [encode_calls, Event.encode_call?]
  | ok encoder =>
    simp only [] at h
    cases hpoll : w.get_next_frame reader with
    | error what =>
      simp only [hpoll, Option.some.injEq] at h
      subst h
      refine ⟨[.get_next_frame reader (.error what), .print_exception program_name what],
        by simp [caught], ?_, ?_⟩
      · simp [Event.is_construction]
      · simp [encode_calls, Event.encode_call?]
    | ok res =>
      obtain ⟨raster, reader'⟩ := res
      simp only [hpoll] at h
      cases hloop : encode_loop w cfg.ssim cfg.y_ac_qi fuel raster reader' encoder 0 with
      | none => simp [hloop] at h
      | some out =>
        obtain ⟨t3, r3⟩ := out
        obtain ⟨hl1, _, _⟩ := encode_loop_sound w store cfg input_file fuel raster
          reader' encoder 0 t3 r3 hloop
        have hnc := in_loop_not_construction (fun ev hev => (hl1 ev hev).2)
        have hfirst := encode_loop_first_call w cfg.ssim cfg.y_ac_qi fuel raster reader'
          encoder 0 t3 r3 hloop
        cases r3 with
        | error what =>
          simp only [hloop, Option.some.injEq] at h
          subst h
          refine ⟨.get_next_frame reader (.ok (raster, reader')) :: t3 ++
            [.print_exception program_name what], by simp [caught], ?_, ?_⟩
          · intro ev hev
            simp only [List.cons_append, List.mem_cons, List.mem_append,
              List.mem_singleton, List.not_mem_nil, or_false] at hev
            rcases hev with rfl | hev | rfl
            · rfl
            · exact hnc ev hev
            · rfl
          · intro c hc
            have : (encode_calls t3).head? = some c := by
              cases ht : encode_calls t3 with
              | nil =>
                unfold encode_calls at hc ht
                simp [List.filterMap_append, ht, Event.encode_call?] at hc
              | cons c' cs =>
                unfold encode_calls at hc ht
                simp [List.filterMap_append, ht, Event.encode_call?] at hc
                simp [hc]
            rw [hfirst c this]
        | ok encoder' =>
          simp only [hloop] at h
          have hsc := save_state_not_construction w store cfg.output_state encoder'
          obtain ⟨s1, _⟩ := save_state_readings w store cfg.output_state encoder'
          rcases hsave : save_state w store cfg.output_state encoder' with ⟨t4, r4⟩
          rw [hsave] at hsc s1
          simp only [hsave] at h
          have hcalls : ∀ tail, encode_calls tail = [] → ∀ c,
              (encode_calls (.get_next_frame reader (.ok (raster, reader')) :: t3 ++ t4 ++
                tail)).head? = some c → (encode_calls t3).head? = some c := by
            intro tail htail c hc
            unfold encode_calls at hc s1 htail ⊢
            simp only [List.cons_append, List.filterMap_cons, Event.encode_call?,
              List.filterMap_append, s1, htail, List.append_nil] at hc
            exact hc
          cases r4 with
          | error what =>
            simp only [Option.some.injEq] at h
            subst h
            refine ⟨.get_next_frame reader (.ok (raster, reader')) :: t3 ++ t4 ++
              [.print_exception program_name what], by simp [caught], ?_, ?_⟩
            · intro ev hev
              simp only [List.cons_append, List.mem_cons, List.mem_append,
                List.mem_singleton, List.not_mem_nil, or_false] at hev
              rcases hev with rfl | (hev | hev) | rfl
              · rfl
              · exact hnc ev hev
              · exact hsc ev hev
              · rfl
            · intro c hc
              rw [hfirst c (hcalls _ (by simp [encode_calls, Event.encode_call?]) c hc)]
          | ok store' =>
            simp only [Option.some.injEq] at h
            subst h
            refine ⟨.get_next_frame reader (.ok (raster, reader')) :: t3 ++ t4,
              by simp, ?_, ?_⟩
            · intro ev hev
              simp only [List.cons_append, List.mem_cons, List.mem_append] at hev
              rcases hev with rfl | hev | hev
              · rfl
              · exact hnc ev hev
              · exact hsc ev hev
            · intro c hc
              have := hcalls [] rfl c (by simpa using hc)
              rw [hfirst c this]

/-! ## Scores, and encoders that agree on what affects encoding -/

theorem scores_of_chained (w : World R S E B St) (ssim : Double) (y_ac_qi : Nat) :
    ∀ (calls : List (EncodeCall R E)) (encoder final : E) (xs : List R),
      calls.map EncodeCall.raster = xs → chained encoder calls final →
      (∀ c ∈ calls, c.ssim = ssim ∧ c.y_ac_qi = y_ac_qi ∧
        c.result = w.encode c.encoder c.raster c.ssim c.y_ac_qi) →
      scores calls = score_list w ssim y_ac_qi encoder xs := by
  intro calls
  induction calls with
  | nil =>
    intro encoder final xs hr _ _
    simp at hr
    subst hr
    rfl
  | cons c rest ih =>
    intro encoder final xs hr hc hf
    cases xs with
    | nil => simp at hr
    | cons x xs =>
      simp only [List.map_cons, List.cons.injEq] at hr
      obtain ⟨hx, hr⟩ := hr
      obtain ⟨h1, h2, h3⟩ := hf c (List.mem_cons_self _ _)
      unfold chained at hc
      obtain ⟨he, hc⟩ := hc
      cases hres : c.result with
      | error what => simp [hres] at hc
      | ok out =>
        obtain ⟨score, encoder'⟩ := out
        simp only [hres] at hc
        have henc : w.encode encoder x ssim y_ac_qi = .ok (score, encoder') := by
          rw [← he, ← hx, ← h1, ← h2, ← h3, hres]
        have := ih encoder' final xs hr hc (fun c' hc' => hf c' (List.mem_cons_of_mem _ hc'))
        simp only [score_list, henc]
        unfold scores at this ⊢
        simp only [List.filterMap_cons, hres]
        rw [this]

theorem encode_all_append (w : World R S E B St) (ssim : Double) (y_ac_qi : Nat) :
    ∀ (xs ys : List R) (encoder final : E),
      encode_all w ssim y_ac_qi encoder (xs ++ ys) = .ok final →
      ∃ middle, encode_all w ssim y_ac_qi encoder xs = .ok middle ∧
        encode_all w ssim y_ac_qi middle ys = .ok final ∧
        score_list w ssim y_ac_qi encoder (xs ++ ys) =
          score_list w ssim y_ac_qi encoder xs ++ score_list w ssim y_ac_qi middle ys ∧
        (score_list w ssim y_ac_qi encoder xs).length = xs.length := by
  intro xs
  induction xs with
  | nil =>
    intro ys encoder final h
    exact ⟨encoder, rfl, h, rfl, rfl⟩
  | cons x xs ih =>
    intro ys encoder final h
    simp only [List.cons_append, encode_all] at h
    cases henc : w.encode encoder x ssim y_ac_qi with
    | error what => simp [henc] at h
    | ok out =>
      obtain ⟨score, encoder'⟩ := out
      simp only [henc] at h
      obtain ⟨middle, h1, h2, h3, h4⟩ := ih ys encoder' final h
      refine ⟨middle, ?_, h2, ?_, ?_⟩
      · simp only [encode_all, henc]
        exact h1
      · simp only [List.cons_append, score_list, henc]
        exact congrArg (List.cons score) h3
      · simp only [score_list, henc, List.length_cons, h4]

/-- Encoders that agree on what affects encoding give the same scores on the
same frames, and end as encoders that agree again. -/
theorem encode_all_congr (w : World R S E B St) (ssim : Double) (y_ac_qi : Nat)
    (eqv : E → E → Prop)
    (hcongr : ∀ e e' r score f, eqv e e' → w.encode e r ssim y_ac_qi = .ok (score, f) →
      ∃ f', w.encode e' r ssim y_ac_qi = .ok (score, f') ∧ eqv f f') :
    ∀ (ys : List R) (e e' final : E), eqv e e' →
      encode_all w ssim y_ac_qi e ys = .ok final →
      ∃ final', encode_all w ssim y_ac_qi e' ys = .ok final' ∧ eqv final final' ∧
        score_list w ssim y_ac_qi e' ys = score_list w ssim y_ac_qi e ys := by
  intro ys
  induction ys with
  | nil =>
    intro e e' final he h
    simp only [encode_all] at h
    injection h with h
    subst h
    exact ⟨e', rfl, he, rfl⟩
  | cons y ys ih =>
    intro e e' final he h
    simp only [encode_all] at h
    cases henc : w.encode e y ssim y_ac_qi with
    | error what => simp [henc] at h
    | ok out =>
      obtain ⟨score, f⟩ := out
      simp only [henc] at h
      obtain ⟨f', henc', hf⟩ := hcongr e e' y score f he henc
      obtain ⟨final', h1, h2, h3⟩ := ih f f' final hf h
      refine ⟨final', ?_, h2, ?_⟩
      · simp only [encode_all, henc']
        exact h1
      · simp only [score_list, henc, henc', h3]

/-- The run of `main` when the reader and the encoder are constructed, the
source yields `xs` and every `encode` returns. -/
theorem complete_run (w : World R S E B St) (store : St) (argv : List String)
    (fuel : Nat) (program_name : String) (cfg : Config) (input_file : String) (reader : S)
    (encoder final : E) (xs : List R)
    (hparse : parse_args w argv = .ready program_name cfg input_file)
    (hopen : (open_input w cfg.input_format input_file).2 = .ok reader)
    (hmake : (make_encoder w store cfg reader).2 = .ok encoder)
    (hsrc : yields w reader xs)
    (hall : encode_all w cfg.ssim cfg.y_ac_qi encoder xs = .ok final)
    (hfuel : xs.length ≤ fuel) :
    ∃ run, main w store argv fuel = some run ∧
      (encode_calls run.trace).map EncodeCall.raster = xs ∧
      chained encoder (encode_calls run.trace) final ∧
      scores (encode_calls run.trace) = score_list w cfg.ssim cfg.y_ac_qi encoder xs ∧
      (∀ store', (save_state w store cfg.output_state final).2 = .ok store' →
        run.store = store' ∧ run.status = .exit EXIT_SUCCESS ∧ run.encoder = some final) := by
  obtain ⟨mid, _, hr, hc, _, _, _, hrun⟩ := session_complete w store program_name cfg
    input_file fuel reader encoder final xs hopen hmake hsrc hall hfuel
  obtain ⟨e1, _, _⟩ := readings_session w store cfg input_file reader final mid
  rw [← main_ready w store argv fuel program_name cfg input_file hparse] at hrun
  have hfaith := run_encode_calls w store argv fuel program_name cfg input_file _ hparse hrun
  have hcalls : ∀ trace : List (Event R S E B), encode_calls trace = encode_calls mid →
      (∀ c ∈ encode_calls trace, c.ssim = cfg.ssim ∧ c.y_ac_qi = cfg.y_ac_qi ∧
        c.result = w.encode c.encoder c.raster c.ssim c.y_ac_qi) →
      (encode_calls trace).map EncodeCall.raster = xs ∧
      chained encoder (encode_calls trace) final ∧
      scores (encode_calls trace) = score_list w cfg.ssim cfg.y_ac_qi encoder xs := by
    intro trace heq hf
    rw [heq] at hf ⊢
    exact ⟨hr, hc, scores_of_chained w cfg.ssim cfg.y_ac_qi _ encoder final xs hr hc hf⟩
  refine ⟨_, hrun, ?_⟩
  cases hsv : (save_state w store cfg.output_state final).2 with
  | error what =>
    rw [hsv] at hfaith
    obtain ⟨a, b, c⟩ := hcalls (caught program_name
      ((open_input w cfg.input_format input_file).1 ++ (make_encoder w store cfg reader).1
        ++ mid ++ (save_state w store cfg.output_state final).1) store what).trace
      (by rw [(readings_caught program_name _ store what).1, e1]) hfaith
    exact ⟨a, b, c, fun store' h => by cases h⟩
  | ok store' =>
    rw [hsv] at hfaith
    obtain ⟨a, b, c⟩ := hcalls ((open_input w cfg.input_format input_file).1 ++
      (make_encoder w store cfg reader).1 ++ mid ++
      (save_state w store cfg.output_state final).1) e1 hfaith
    refine ⟨a, b, c, ?_⟩
    intro store'' h
    injection h with h
    subst h
    exact ⟨rfl, rfl, rfl⟩

/-! ## Where the two-pass flag goes -/

theorem parse_options_with_flag_negated (w : World R S E B St) :
    ∀ (opts : List (Char × String)) (cfg : Config),
      parse_options (with_flag_negated w) opts cfg = parse_options w opts cfg := by
  intro opts
  induction opts with
  | nil =>
    intro cfg
    rfl
  | cons o rest ih =>
    intro cfg
    obtain ⟨opt, optarg⟩ := o
    simp only [parse_options]
    have : apply_option (with_flag_negated w) cfg opt optarg = apply_option w cfg opt optarg :=
      rfl
    rw [this]
    cases apply_option w cfg opt optarg with
    | error what => rfl
    | ok cfg1 => exact ih cfg1

theorem parse_args_with_flag_negated (w : World R S E B St) (argv : List String) :
    parse_args (with_flag_negated w) argv = parse_args w argv := by
  unfold parse_args
  cases argv with
  | nil => rfl
  | cons p rest =>
    simp only [parse_options_with_flag_negated]
    rfl

theorem encode_loop_with_flag_negated (w : World R S E B St) (ssim : Double) (y_ac_qi : Nat) :
    ∀ (fuel : Nat) (raster : Option R) (reader : S) (encoder : E) (frame_index : Nat),
      encode_loop (with_flag_negated w) ssim y_ac_qi fuel raster reader encoder frame_index =
        encode_loop w ssim y_ac_qi fuel raster reader encoder frame_index := by
  intro fuel
  induction fuel with
  | zero =>
    intro raster reader encoder frame_index
    cases raster <;> rfl
  | succ fuel ih =>
    intro raster reader encoder frame_index
    cases raster with
    | none => rfl
    | some x =>
      rw [encode_loop, encode_loop]
      have h1 : (with_flag_negated w).encode = w.encode := rfl
      have h2 : (with_flag_negated w).get_next_frame = w.get_next_frame := rfl
      simp only [h1, h2, ih]

/-- A run of `session` whose reader and encoder are constructed, against the
run of the same options with the two-pass flag flipped in a world whose
constructions of the encoder are given the opposite flag: the two logs differ
in the flag logged at the construction of the encoder and in nothing else, and
the status, the store and the encoder are the same. -/
theorem session_flag (w : World R S E B St) (store : St) (program_name : String)
    (cfg : Config) (input_file : String) (fuel : Nat) (reader : S) (encoder : E)
    (run : Run R S E B St)
    (hopen : (open_input w cfg.input_format input_file).2 = .ok reader)
    (hmake : (make_encoder w store cfg reader).2 = .ok encoder)
    (h : session w store program_name cfg input_file fuel = some run) :
    ∃ rest,
      run.trace = (open_input w cfg.input_format input_file).1 ++
        [if cfg.input_state = "" then
          .Encoder cfg.output_file (w.display_width reader) (w.display_height reader)
            cfg.two_pass (.ok encoder)
        else .build cfg.input_state cfg.output_file cfg.two_pass (.ok encoder)] ++ rest ∧
      (∀ ev ∈ rest, ev.is_construction = false) ∧
      session (with_flag_negated w) store program_name
          { cfg with two_pass := !cfg.two_pass } input_file fuel =
        some ⟨run.status,
          (open_input w cfg.input_format input_file).1 ++
            [if cfg.input_state = "" then
              .Encoder cfg.output_file (w.display_width reader) (w.display_height reader)
                (!cfg.two_pass) (.ok encoder)
            else .build cfg.input_state cfg.output_file (!cfg.two_pass) (.ok encoder)] ++ rest,
          run.store, run.encoder⟩ := by
  have hm1 : make_encoder w store cfg reader =
      ([if cfg.input_state = "" then
          .Encoder cfg.output_file (w.display_width reader) (w.display_height reader)
            cfg.two_pass (.ok encoder)
        else .build cfg.input_state cfg.output_file cfg.two_pass (.ok encoder)],
        .ok encoder) := by
    unfold make_encoder at hmake ⊢
    by_cases hi : cfg.input_state = ""
    · simp only [hi, if_true] at hmake ⊢
      rw [hmake]
    · simp only [hi, if_false] at hmake ⊢
      rw [hmake]
  have hm2 : make_encoder (with_flag_negated w) store { cfg with two_pass := !cfg.two_pass }
      reader =
      ([if cfg.input_state = "" then
          .Encoder cfg.output_file (w.display_width reader) (w.display_height reader)
            (!cfg.two_pass) (.ok encoder)
        else .build cfg.input_state cfg.output_file (!cfg.two_pass) (.ok encoder)],
        .ok encoder) := by
    unfold make_encoder at hmake ⊢
    by_cases hi : cfg.input_state = ""
    · simp only [hi, if_true] at hmake ⊢
      simp only [with_flag_negated, Bool.not_not, hmake]
    · simp only [hi, if_false] at hmake ⊢
      simp only [with_flag_negated, Bool.not_not, hmake]
  have ho2 : open_input (with_flag_negated w)
      ({ cfg with two_pass := !cfg.two_pass } : Config).input_format input_file =
      open_input w cfg.input_format input_file := rfl
  have hp2 : (with_flag_negated w).get_next_frame = w.get_next_frame := rfl
  have hs2 : ∀ e, save_state (with_flag_negated w) store
      ({ cfg with two_pass := !cfg.two_pass } : Config).output_state e =
      save_state w store cfg.output_state e := fun _ => rfl
  have hl2 : ∀ raster reader' e, encode_loop (with_flag_negated w)
      ({ cfg with two_pass := !cfg.two_pass } : Config).ssim
      ({ cfg with two_pass := !cfg.two_pass } : Config).y_ac_qi fuel raster reader' e 0 =
      encode_loop w cfg.ssim cfg.y_ac_qi fuel raster reader' e 0 := fun raster reader' e =>
    encode_loop_with_flag_negated w cfg.ssim cfg.y_ac_qi fuel raster reader' e 0
  unfold session at h ⊢
  rw [ho2]
  rcases ho : open_input w cfg.input_format input_file with ⟨t1, r1⟩
  rw [ho] at hopen h
  dsimp only at hopen
  subst hopen
  simp only [] at h ⊢
  rw [hm1] at h
  rw [hm2]
  simp only [hp2, hs2, hl2] at h ⊢
  cases hpoll : w.get_next_frame reader with
  | error what =>
    simp only [hpoll, Option.some.injEq] at h ⊢
    subst h
    refine ⟨[.get_next_frame reader (.error what), .print_exception program_name what],
      by simp [caught], ?_, by simp [caught]⟩
    simp [Event.is_construction]
  | ok res =>
    obtain ⟨raster, reader'⟩ := res
    simp only [hpoll] at h ⊢
    cases hloop : encode_loop w cfg.ssim cfg.y_ac_qi fuel raster reader' encoder 0 with
    | none => simp [hloop] at h
    | some out =>
      obtain ⟨t3, r3⟩ := out
      obtain ⟨hl1, _, _⟩ := encode_loop_sound w store cfg input_file fuel raster
        reader' encoder 0 t3 r3 hloop
      have hnc := in_loop_not_construction (fun ev hev => (hl1 ev hev).2)
      cases r3 with
      | error what =>
        simp only [hloop, Option.some.injEq] at h ⊢
        subst h
        refine ⟨.get_next_frame reader (.ok (raster, reader')) :: t3 ++
          [.print_exception program_name what], by simp [caught], ?_, by simp [caught]⟩
        intro ev hev
        simp only [List.cons_append, List.mem_cons, List.mem_append,
          List.mem_singleton, List.not_mem_nil, or_false] at hev
        rcases hev with rfl | hev | rfl
        · rfl
        · exact hnc ev hev
        · rfl
      | ok encoder' =>
        simp only [hloop] at h ⊢
        have hsc := save_state_not_construction w store cfg.output_state encoder'
        rcases hsave : save_state w store cfg.output_state encoder' with ⟨t4, r4⟩
        rw [hsave] at hsc
        simp only [hsave] at h ⊢
        cases r4 with
        | error what =>
          simp only [Option.some.injEq] at h ⊢
          subst h
          refine ⟨.get_next_frame reader (.ok (raster, reader')) :: t3 ++ t4 ++
            [.print_exception program_name what], by simp [caught], ?_, by simp [caught]⟩
          intro ev hev
          simp only [List.cons_append, List.mem_cons, List.mem_append,
            List.mem_singleton, List.not_mem_nil, or_false] at hev
          rcases hev with rfl | (hev | hev) | rfl
          · rfl
          · exact hnc ev hev
          · exact hsc ev hev
          · rfl
        | ok store' =>
          simp only [Option.some.injEq] at h ⊢
          subst h
          refine ⟨.get_next_frame reader (.ok (raster, reader')) :: t3 ++ t4,
            by simp, ?_, by simp⟩
          intro ev hev
          simp only [List.cons_append, List.mem_cons, List.mem_append] at hev
          rcases hev with rfl | hev | hev
          · rfl
          · exact hnc ev hev
          · exact hsc ev hev

/-- C2. Three command lines with the same target and quantization index: one
encodes the frames `xs ++ ys` in one run; one encodes `xs` from the same first
encoder and writes a checkpoint to `output_state`; one takes that checkpoint
as `input_state`, with the output file and the two-pass flag of the first, and
encodes `ys`. Assume the round-trip law for a relation `eqv` between encoders
(`build` on a store to which the serialization of an encoder was written
returns an encoder `eqv` to it), that `encode`, a function of its arguments,
gives on `eqv` encoders the same score and `eqv` encoders again, and that the
encode calls of the one-run session and the checkpoint write return. Then with
fuel for `xs ++ ys` all three runs end, the resumed run started from the store
the second one left, and: the resumed run encodes exactly `ys`, its scores are
the scores of the one-run session after the first `xs.length`, and the encoder
its last call leaves is `eqv` to the one the one-run session ends with (equal
to it when `eqv` is equality). `xs` may be empty. -/
theorem resume_is_seamless (w : World R S E B St) (eqv : E → E → Prop) (store : St)
    (fuel : Nat) (argv_whole argv_head argv_tail : List String)
    (name_whole name_head name_tail : String) (cfg_whole cfg_head cfg_tail : Config)
    (file_whole file_head file_tail : String) (reader_whole reader_head reader_tail : S)
    (encoder middle final : E) (odata : B) (store_head : St) (xs ys : List R)
    (hwhole : parse_args w argv_whole = .ready name_whole cfg_whole file_whole)
    (hhead : parse_args w argv_head = .ready name_head cfg_head file_head)
    (htail : parse_args w argv_tail = .ready name_tail cfg_tail file_tail)
    (hssim_head : cfg_head.ssim = cfg_whole.ssim)
    (hqi_head : cfg_head.y_ac_qi = cfg_whole.y_ac_qi)
    (hssim_tail : cfg_tail.ssim = cfg_whole.ssim)
    (hqi_tail : cfg_tail.y_ac_qi = cfg_whole.y_ac_qi)
    (hout_tail : cfg_tail.output_file = cfg_whole.output_file)
    (hflag_tail : cfg_tail.two_pass = cfg_whole.two_pass)
    (hcheckpoint : cfg_head.output_state ≠ "")
    (hresume : cfg_tail.input_state = cfg_head.output_state)
    (hopen_whole : (open_input w cfg_whole.input_format file_whole).2 = .ok reader_whole)
    (hopen_head : (open_input w cfg_head.input_format file_head).2 = .ok reader_head)
    (hopen_tail : (open_input w cfg_tail.input_format file_tail).2 = .ok reader_tail)
    (hsrc_whole : yields w reader_whole (xs ++ ys))
    (hsrc_head : yields w reader_head xs)
    (hsrc_tail : yields w reader_tail ys)
    (hmake_whole : (make_encoder w store cfg_whole reader_whole).2 = .ok encoder)
    (hmake_head : (make_encoder w store cfg_head reader_head).2 = .ok encoder)
    (hcongr : ∀ e e' r score f, eqv e e' →
      w.encode e r cfg_whole.ssim cfg_whole.y_ac_qi = .ok (score, f) →
      ∃ f', w.encode e' r cfg_whole.ssim cfg_whole.y_ac_qi = .ok (score, f') ∧ eqv f f')
    (hlaw : ∀ e data store', w.serialize e = .ok data →
      w.write store data cfg_head.output_state = .ok store' →
      ∃ e', w.build store' cfg_head.output_state cfg_whole.output_file cfg_whole.two_pass
        = .ok e' ∧ eqv e e')
    (hall : encode_all w cfg_whole.ssim cfg_whole.y_ac_qi encoder (xs ++ ys) = .ok final)
    (hmiddle : encode_all w cfg_whole.ssim cfg_whole.y_ac_qi encoder xs = .ok middle)
    (hserialize : w.serialize middle = .ok odata)
    (hwrite : w.write store odata cfg_head.output_state = .ok store_head)
    (hfuel : (xs ++ ys).length ≤ fuel) :
    ∃ run_whole run_head run_tail resumed final',
      main w store argv_whole fuel = some run_whole ∧
      main w store argv_head fuel = some run_head ∧
      run_head.status = .exit EXIT_SUCCESS ∧ run_head.store = store_head ∧
      main w run_head.store argv_tail fuel = some run_tail ∧
      w.build store_head cfg_tail.input_state cfg_tail.output_file cfg_tail.two_pass
        = .ok resumed ∧ eqv middle resumed ∧
      (encode_calls run_whole.trace).map EncodeCall.raster = xs ++ ys ∧
      (encode_calls run_tail.trace).map EncodeCall.raster = ys ∧
      chained encoder (encode_calls run_whole.trace) final ∧
      chained resumed (encode_calls run_tail.trace) final' ∧
      eqv final final' ∧
      scores (encode_calls run_tail.trace) =
        (scores (encode_calls run_whole.trace)).drop xs.length := by
  -- the session in one run
  obtain ⟨run_whole, hrun_whole, hr_whole, hc_whole, hs_whole, _⟩ :=
    complete_run w store argv_whole fuel name_whole cfg_whole file_whole reader_whole encoder
      final (xs ++ ys) hwhole hopen_whole hmake_whole hsrc_whole hall hfuel
  obtain ⟨middle', hm1, hm2, hsplit, hlen⟩ :=
    encode_all_append w cfg_whole.ssim cfg_whole.y_ac_qi xs ys encoder final hall
  have hmm : middle' = middle := by
    rw [hmiddle] at hm1
    injection hm1 with hm1
    exact hm1.symm
  subst hmm
  -- the first part, with its checkpoint
  have hfuel_head : xs.length ≤ fuel := by
    simp only [List.length_append] at hfuel
    omega
  have hfuel_tail : ys.length ≤ fuel := by
    simp only [List.length_append] at hfuel
    omega
  obtain ⟨run_head, hrun_head, _, _, _, hstore_head⟩ :=
    complete_run w store argv_head fuel name_head cfg_head file_head reader_head encoder
      middle' xs hhead hopen_head hmake_head hsrc_head
      (by rw [hssim_head, hqi_head]; exact hmiddle) hfuel_head
  have hsave : (save_state w store cfg_head.output_state middle').2 = .ok store_head := by
    simp [save_state, hcheckpoint, hserialize, hwrite]
  obtain ⟨hst, hstatus, _⟩ := hstore_head store_head hsave
  -- the resumed part
  obtain ⟨resumed, hbuild, heqv⟩ := hlaw middle' odata store_head hserialize hwrite
  have hne : cfg_tail.input_state ≠ "" := by
    rw [hresume]
    exact hcheckpoint
  have hmake_tail : (make_encoder w store_head cfg_tail reader_tail).2 = .ok resumed := by
    simp only [make_encoder, hne, if_false]
    rw [hresume, hout_tail, hflag_tail]
    exact hbuild
  obtain ⟨final', ht1, ht2, ht3⟩ := encode_all_congr w cfg_whole.ssim cfg_whole.y_ac_qi eqv
    hcongr ys middle' resumed final heqv hm2
  obtain ⟨run_tail, hrun_tail, hr_tail, hc_tail, hs_tail, _⟩ :=
    complete_run w store_head argv_tail fuel name_tail cfg_tail file_tail reader_tail resumed
      final' ys htail hopen_tail hmake_tail hsrc_tail
      (by rw [hssim_tail, hqi_tail]; exact ht1) hfuel_tail
  refine ⟨run_whole, run_head, run_tail, resumed, final', hrun_whole, hrun_head, hstatus, hst,
    ?_, ?_, heqv, hr_whole, hr_tail, hc_whole, hc_tail, ht2, ?_⟩
  · rw [hst]
    exact hrun_tail
  · rw [hresume, hout_tail, hflag_tail]
    exact hbuild
  · rw [hs_tail, hs_whole, hssim_tail, hqi_tail, ht3, hsplit, ← hlen, List.drop_left]

/-- C2 in the concrete world, for a session of ten frames split after the
fifth: `xc-enc ten.ivf` against `xc-enc -O ck head.ivf` followed by
`xc-enc -I ck tail.ivf`. -/
theorem resume_is_seamless_witness :
    ∃ run_whole run_head run_tail,
      main demo [] ["xc-enc", "ten.ivf"] 10 = some run_whole ∧
      main demo [] ["xc-enc", "-O", "ck", "head.ivf"] 10 = some run_head ∧
      run_head.store = [("ck", [16, 8, 5, 3300])] ∧
      main demo run_head.store ["xc-enc", "-I", "ck", "tail.ivf"] 10 = some run_tail ∧
      (encode_calls run_tail.trace).map EncodeCall.raster = [6, 7, 8, 9, 10] ∧
      chained ⟨"output.ivf", false, 16, 8, 0, 0⟩ (encode_calls run_whole.trace)
        ⟨"output.ivf", false, 16, 8, 10, 18730⟩ ∧
      (∃ final', chained ⟨"output.ivf", false, 16, 8, 5, 3300⟩ (encode_calls run_tail.trace)
        final' ∧ demo_agree ⟨"output.ivf", false, 16, 8, 10, 18730⟩ final') ∧
      scores (encode_calls run_tail.trace) =
        (scores (encode_calls run_whole.trace)).drop 5 := by
  obtain ⟨run_whole, run_head, run_tail, resumed, final', h1, h2, _, h4, h5, h6, _, _, h9, h10,
      h11, h12, h13⟩ :=
    resume_is_seamless demo demo_agree [] 10
      ["xc-enc", "ten.ivf"] ["xc-enc", "-O", "ck", "head.ivf"] ["xc-enc", "-I", "ck", "tail.ivf"]
      "xc-enc" "xc-enc" "xc-enc"
      Config.initial { Config.initial with output_state := "ck" }
      { Config.initial with input_state := "ck" }
      "ten.ivf" "head.ivf" "tail.ivf"
      ⟨16, 8, [1, 2, 3, 4, 5, 6, 7, 8, 9, 10]⟩ ⟨16, 8, [1, 2, 3, 4, 5]⟩
      ⟨16, 8, [6, 7, 8, 9, 10]⟩
      ⟨"output.ivf", false, 16, 8, 0, 0⟩ ⟨"output.ivf", false, 16, 8, 5, 3300⟩
      ⟨"output.ivf", false, 16, 8, 10, 18730⟩ [16, 8, 5, 3300] [("ck", [16, 8, 5, 3300])]
      [1, 2, 3, 4, 5] [6, 7, 8, 9, 10]
      rfl rfl rfl rfl rfl rfl rfl rfl rfl (by decide) rfl rfl rfl rfl
      ⟨rfl, rfl, rfl, rfl, rfl, rfl, rfl, rfl, rfl, rfl, trivial⟩
      ⟨rfl, rfl, rfl, rfl, rfl, trivial⟩
      ⟨rfl, rfl, rfl, rfl, rfl, trivial⟩
      rfl rfl
      (by
        intro e e' r score f hagree henc
        obtain ⟨a1, a2, a3, a4⟩ := hagree
        by_cases hr : r = 0
        · simp [demo, hr] at henc
        · simp only [demo, hr, if_false, Except.ok.injEq, Prod.mk.injEq] at henc ⊢
          obtain ⟨hs, hf⟩ := henc
          subst hf
          exact ⟨_, ⟨by rw [← a4]; exact hs, rfl⟩, a1, a2, by simp [a3], by simp [a4]⟩)
      (by
        intro e data store' hser hwr
        simp only [demo, Except.ok.injEq] at hser hwr
        have hck : ¬ (({ Config.initial with output_state := "ck" } : Config).output_state
            = "/dev/full") := by decide
        simp only [hck, if_false, Except.ok.injEq] at hwr
        subst hser
        subst hwr
        exact ⟨⟨"output.ivf", false, e.width, e.height, e.frame_count, e.digest⟩,
          by simp [demo, List.lookup, Config.initial], rfl, rfl, rfl, rfl⟩)
      rfl rfl rfl rfl (by decide)
  have hres : resumed = ⟨"output.ivf", false, 16, 8, 5, 3300⟩ := by
    have : demo.build [("ck", [16, 8, 5, 3300])] "ck" "output.ivf" false =
        .ok ⟨"output.ivf", false, 16, 8, 5, 3300⟩ := rfl
    have h6' : demo.build [("ck", [16, 8, 5, 3300])] "ck" "output.ivf" false = .ok resumed :=
      h6
    rw [this] at h6'
    injection h6' with h6'
    exact h6'.symm
  subst hres
  exact ⟨run_whole, run_head, run_tail, h1, h2, h4, h5, h9, h10, ⟨final', h11, h12⟩, h13⟩

/-- C3. In a run where every collaborator call returns (the reader and the
encoder are constructed, the source yields `xs` and then the end, the calls of
`encode` leave the encoder `final`, and, when `output_state` is not empty,
`serialize` and `write` return), `main` ends with status `EXIT_SUCCESS`. With
an empty `output_state` neither `serialize` nor `write` is logged and the store
is unchanged. With a non-empty one the log ends with one `serialize` of `final`
followed by one `write` of its result to `output_state`, nothing before them
is a `serialize` or a `write`, all the `encode` calls on `xs` come before
them, and the store is the one `write` returned. -/
theorem checkpoint_written_once_at_end (w : World R S E B St) (store : St)
    (argv : List String) (fuel : Nat) (program_name : String) (cfg : Config)
    (input_file : String) (reader : S) (encoder final : E) (xs : List R)
    (hparse : parse_args w argv = .ready program_name cfg input_file)
    (hopen : (open_input w cfg.input_format input_file).2 = .ok reader)
    (hmake : (make_encoder w store cfg reader).2 = .ok encoder)
    (hsrc : yields w reader xs)
    (hall : encode_all w cfg.ssim cfg.y_ac_qi encoder xs = .ok final)
    (hsave : cfg.output_state ≠ "" → ∃ odata store',
      w.serialize final = .ok odata ∧ w.write store odata cfg.output_state = .ok store')
    (hfuel : xs.length ≤ fuel) :
    ∃ run, main w store argv fuel = some run ∧ run.status = .exit EXIT_SUCCESS ∧
      run.encoder = some final ∧
      (cfg.output_state = "" →
        serialize_calls run.trace = [] ∧ write_calls run.trace = [] ∧ run.store = store) ∧
      (cfg.output_state ≠ "" → ∃ pre odata,
        run.trace = pre ++ [.serialize final (.ok odata),
          .write odata cfg.output_state (.ok ())] ∧
        serialize_calls pre = [] ∧ write_calls pre = [] ∧
        (encode_calls pre).map EncodeCall.raster = xs ∧
        w.serialize final = .ok odata ∧
        w.write store odata cfg.output_state = .ok run.store) := by
  obtain ⟨mid, hin, hr, _, _, _, _, hrun⟩ := session_complete w store program_name cfg
    input_file fuel reader encoder final xs hopen hmake hsrc hall hfuel
  rw [← main_ready w store argv fuel program_name cfg input_file hparse] at hrun
  obtain ⟨_, _, _, a4, a5, _⟩ := open_input_readings w cfg.input_format input_file
  obtain ⟨_, _, _, b4, b5, _⟩ := make_encoder_readings w store cfg reader
  obtain ⟨c4, c5, _, _⟩ := in_loop_readings hin
  have hpre_s : serialize_calls ((open_input w cfg.input_format input_file).1 ++
      (make_encoder w store cfg reader).1 ++ mid) = [] := by
    unfold serialize_calls at *
    simp only [List.filterMap_append, a4, b4, c4, List.append_nil]
  have hpre_w : write_calls ((open_input w cfg.input_format input_file).1 ++
      (make_encoder w store cfg reader).1 ++ mid) = [] := by
    unfold write_calls at *
    simp only [List.filterMap_append, a5, b5, c5, List.append_nil]
  have hpre_e : (encode_calls ((open_input w cfg.input_format input_file).1 ++
      (make_encoder w store cfg reader).1 ++ mid)).map EncodeCall.raster = xs := by
    obtain ⟨a1, _⟩ := open_input_readings w cfg.input_format input_file
    obtain ⟨b1, _⟩ := make_encoder_readings w store cfg reader
    unfold encode_calls at *
    simp only [List.filterMap_append, a1, b1, List.nil_append]
    exact hr
  by_cases hempty : cfg.output_state = ""
  · have hs : save_state w store cfg.output_state final = ([], .ok store) := by
      simp [save_state, hempty]
    rw [hs] at hrun
    simp only [List.append_nil] at hrun
    refine ⟨_, hrun, rfl, rfl, fun _ => ⟨hpre_s, hpre_w, rfl⟩, fun hne => absurd hempty hne⟩
  · obtain ⟨odata, store', hser, hwr⟩ := hsave hempty
    have hs : save_state w store cfg.output_state final =
        ([.serialize final (.ok odata), .write odata cfg.output_state (.ok ())],
          .ok store') := by
      simp [save_state, hempty, hser, hwr]
    rw [hs] at hrun
    refine ⟨_, hrun, rfl, rfl, fun he => absurd he hempty, fun _ =>
      ⟨_, odata, rfl, hpre_s, hpre_w, hpre_e, hser, hwr⟩⟩

/-- C3 at `xc-enc -O ck two.ivf` in the concrete world: the checkpoint of the
encoder reached after both frames is written to `ck`. -/
theorem checkpoint_written_once_at_end_witness :
    ∃ run, main demo [] ["xc-enc", "-O", "ck", "two.ivf"] 2 = some run ∧
      run.status = .exit EXIT_SUCCESS ∧
      run.encoder = some ⟨"output.ivf", false, 16, 8, 2, 33⟩ ∧
      serialize_calls run.trace = [(⟨"output.ivf", false, 16, 8, 2, 33⟩, .ok [16, 8, 2, 33])] ∧
      write_calls run.trace = [([16, 8, 2, 33], "ck", .ok ())] ∧
      run.store = [("ck", [16, 8, 2, 33])] := by
  obtain ⟨run, hrun, hstatus, henc, _, hck⟩ :=
    checkpoint_written_once_at_end demo [] ["xc-enc", "-O", "ck", "two.ivf"] 2 "xc-enc"
      { Config.initial with output_state := "ck" } "two.ivf" ⟨16, 8, [1, 2]⟩
      ⟨"output.ivf", false, 16, 8, 0, 0⟩ ⟨"output.ivf", false, 16, 8, 2, 33⟩ [1, 2]
      rfl rfl rfl ⟨rfl, rfl, trivial⟩ rfl
      (fun _ => ⟨[16, 8, 2, 33], [("ck", [16, 8, 2, 33])], rfl, rfl⟩) (by decide)
  obtain ⟨pre, odata, htrace, hs, hw, _, hser, hwr⟩ := hck (by decide)
  have hodata : odata = [16, 8, 2, 33] := by
    have : demo.serialize ⟨"output.ivf", false, 16, 8, 2, 33⟩ = .ok [16, 8, 2, 33] := rfl
    rw [this] at hser
    injection hser with hser
    exact hser.symm
  subst hodata
  have hstore : run.store = [("ck", [16, 8, 2, 33])] := by
    have : demo.write [] [16, 8, 2, 33] "ck" = .ok [("ck", [16, 8, 2, 33])] := rfl
    rw [this] at hwr
    injection hwr with hwr
    exact hwr.symm
  refine ⟨run, hrun, hstatus, henc, ?_, ?_, hstore⟩
  · rw [htrace]
    unfold serialize_calls at hs ⊢
    rw [List.filterMap_append, hs]
    rfl
  · rw [htrace]
    unfold write_calls at hw ⊢
    rw [List.filterMap_append, hw]
    rfl

theorem parse_options_with_display (w : World R S E B St) (dw dh : S → Nat) :
    ∀ (opts : List (Char × String)) (cfg : Config),
      parse_options (with_display w dw dh) opts cfg = parse_options w opts cfg := by
  intro opts
  induction opts with
  | nil =>
    intro cfg
    rfl
  | cons o rest ih =>
    intro cfg
    obtain ⟨opt, optarg⟩ := o
    simp only [parse_options]
    have : apply_option (with_display w dw dh) cfg opt optarg = apply_option w cfg opt optarg :=
      rfl
    rw [this]
    cases apply_option w cfg opt optarg with
    | error what => rfl
    | ok cfg1 => exact ih cfg1

theorem parse_args_with_display (w : World R S E B St) (dw dh : S → Nat)
    (argv : List String) : parse_args (with_display w dw dh) argv = parse_args w argv := by
  unfold parse_args
  cases argv with
  | nil => rfl
  | cons p rest =>
    simp only [parse_options_with_display]
    rfl

theorem encode_loop_with_display (w : World R S E B St) (dw dh : S → Nat) (ssim : Double)
    (y_ac_qi : Nat) :
    ∀ (fuel : Nat) (raster : Option R) (reader : S) (encoder : E) (frame_index : Nat),
      encode_loop (with_display w dw dh) ssim y_ac_qi fuel raster reader encoder frame_index =
        encode_loop w ssim y_ac_qi fuel raster reader encoder frame_index := by
  intro fuel
  induction fuel with
  | zero =>
    intro raster reader encoder frame_index
    cases raster <;> rfl
  | succ fuel ih =>
    intro raster reader encoder frame_index
    cases raster with
    | none => rfl
    | some x =>
      rw [encode_loop, encode_loop]
      have h1 : (with_display w dw dh).encode = w.encode := rfl
      have h2 : (with_display w dw dh).get_next_frame = w.get_next_frame := rfl
      simp only [h1, h2, ih]

theorem session_with_display (w : World R S E B St) (dw dh : S → Nat) (store : St)
    (program_name : String) (cfg : Config) (input_file : String) (fuel : Nat)
    (h : cfg.input_state ≠ "") :
    session (with_display w dw dh) store program_name cfg input_file fuel =
      session w store program_name cfg input_file fuel := by
  unfold session
  have h1 : open_input (with_display w dw dh) cfg.input_format input_file =
      open_input w cfg.input_format input_file := rfl
  have h2 : ∀ reader, make_encoder (with_display w dw dh) store cfg reader =
      make_encoder w store cfg reader := by
    intro reader
    unfold make_encoder
    simp only [h, if_false]
    rfl
  have h3 : (with_display w dw dh).get_next_frame = w.get_next_frame := rfl
  have h4 : ∀ encoder, save_state (with_display w dw dh) store cfg.output_state encoder =
      save_state w store cfg.output_state encoder := fun _ => rfl
  simp only [h1, h2, h3, h4, encode_loop_with_display]

/-- C5. For a command line parsed to `cfg` whose frame reader is constructed:
when the source ends within `fuel` frames `main` ends, and every run of `main`
that is over has a log that starts with the construction of the reader,
followed by the one construction of the encoder of the run: with an empty
`input_state`, the call
`Encoder(output_file, display_width, display_height, two_pass)` on the output
file and two-pass flag of `cfg` and the display size of the reader; with a
non-empty one, the call `build(input_state, output_file, two_pass)` on the
output file and two-pass flag of `cfg`. The first `encode` acts on the encoder
that call returned, and when that call throws the run ends there, whatever
the fuel. A run that is over is the same with more fuel. And with a non-empty
`input_state` the run does not depend on what `display_width` and
`display_height` answer. -/
theorem encoder_fresh_or_rebuilt (w : World R S E B St) (store : St) (argv : List String)
    (fuel : Nat) (program_name : String) (cfg : Config) (input_file : String) (reader : S)
    (hparse : parse_args w argv = .ready program_name cfg input_file)
    (hopen : (open_input w cfg.input_format input_file).2 = .ok reader) :
    (ends_within w fuel reader → ∃ run rest, main w store argv fuel = some run ∧
      run.trace = (open_input w cfg.input_format input_file).1 ++
        [if cfg.input_state = "" then
          .Encoder cfg.output_file (w.display_width reader) (w.display_height reader)
            cfg.two_pass (w.Encoder cfg.output_file (w.display_width reader)
              (w.display_height reader) cfg.two_pass)
        else
          .build cfg.input_state cfg.output_file cfg.two_pass
            (w.build store cfg.input_state cfg.output_file cfg.two_pass)] ++ rest ∧
      (∀ ev ∈ rest, ev.is_construction = false) ∧
      (∀ c, (encode_calls rest).head? = some c →
        (if cfg.input_state = "" then
          w.Encoder cfg.output_file (w.display_width reader) (w.display_height reader)
            cfg.two_pass
        else w.build store cfg.input_state cfg.output_file cfg.two_pass) = .ok c.encoder)) ∧
    (∀ what, (make_encoder w store cfg reader).2 = .error what →
      main w store argv fuel = some (caught program_name
        ((open_input w cfg.input_format input_file).1 ++ (make_encoder w store cfg reader).1)
        store what)) ∧
    (∀ run fuel', main w store argv fuel = some run → fuel ≤ fuel' →
      main w store argv fuel' = some run) ∧
    (∀ run, main w store argv fuel = some run →
      (cfg.input_state = "" → ∃ rest,
        run.trace = (open_input w cfg.input_format input_file).1 ++
          [.Encoder cfg.output_file (w.display_width reader) (w.display_height reader)
            cfg.two_pass (w.Encoder cfg.output_file (w.display_width reader)
              (w.display_height reader) cfg.two_pass)] ++ rest ∧
        (∀ ev ∈ rest, ev.is_construction = false) ∧
        (∀ c, (encode_calls rest).head? = some c →
          w.Encoder cfg.output_file (w.display_width reader) (w.display_height reader)
            cfg.two_pass = .ok c.encoder)) ∧
      (cfg.input_state ≠ "" → ∃ rest,
        run.trace = (open_input w cfg.input_format input_file).1 ++
          [.build cfg.input_state cfg.output_file cfg.two_pass
            (w.build store cfg.input_state cfg.output_file cfg.two_pass)] ++ rest ∧
        (∀ ev ∈ rest, ev.is_construction = false) ∧
        (∀ c, (encode_calls rest).head? = some c →
          w.build store cfg.input_state cfg.output_file cfg.two_pass = .ok c.encoder))) ∧
    (cfg.input_state ≠ "" → ∀ dw dh,
      main (with_display w dw dh) store argv fuel = main w store argv fuel) := by
  have hmk : make_encoder w store cfg reader =
      ([if cfg.input_state = "" then
          .Encoder cfg.output_file (w.display_width reader) (w.display_height reader)
            cfg.two_pass (w.Encoder cfg.output_file (w.display_width reader)
              (w.display_height reader) cfg.two_pass)
        else
          .build cfg.input_state cfg.output_file cfg.two_pass
            (w.build store cfg.input_state cfg.output_file cfg.two_pass)],
        if cfg.input_state = "" then
          w.Encoder cfg.output_file (w.display_width reader) (w.display_height reader)
            cfg.two_pass
        else w.build store cfg.input_state cfg.output_file cfg.two_pass) := by
    unfold make_encoder
    split_ifs <;> rfl
  refine ⟨?_, ?_, ?_, ?_, ?_⟩
  · intro hend
    obtain ⟨run, hrun⟩ := main_terminates w store argv fuel (by
      intro p' cfg' f' reader' hp' ho'
      rw [hparse] at hp'
      injection hp' with _ hc hf
      subst hc
      subst hf
      rw [hopen] at ho'
      injection ho' with ho'
      rw [← ho']
      exact hend)
    have hrun' := hrun
    rw [main_ready w store argv fuel program_name cfg input_file hparse] at hrun'
    obtain ⟨rest, htrace, hnc, hfirst⟩ := session_prefix w store program_name cfg input_file
      fuel reader run hopen hrun'
    rw [hmk] at htrace hfirst
    exact ⟨run, rest, hrun, htrace, hnc, hfirst⟩
  · intro what herr
    rw [main_ready w store argv fuel program_name cfg input_file hparse]
    unfold session
    rcases ho : open_input w cfg.input_format input_file with ⟨t1, r1⟩
    rw [ho] at hopen
    dsimp only at hopen
    subst hopen
    simp only []
    rcases hm : make_encoder w store cfg reader with ⟨t2, r2⟩
    rw [hm] at herr
    dsimp only at herr
    subst herr
    simp only []
  · intro run fuel' hrun hle
    exact main_fuel_mono w store argv fuel fuel' run hrun hle
  · intro run hrun
    rw [main_ready w store argv fuel program_name cfg input_file hparse] at hrun
    obtain ⟨rest, htrace, hnc, hfirst⟩ := session_prefix w store program_name cfg input_file
      fuel reader run hopen hrun
    refine ⟨?_, ?_⟩
    · intro hempty
      have hm : make_encoder w store cfg reader =
          ([.Encoder cfg.output_file (w.display_width reader) (w.display_height reader)
            cfg.two_pass (w.Encoder cfg.output_file (w.display_width reader)
              (w.display_height reader) cfg.two_pass)],
            w.Encoder cfg.output_file (w.display_width reader) (w.display_height reader)
              cfg.two_pass) := by
        simp [make_encoder, hempty]
      rw [hm] at htrace hfirst
      exact ⟨rest, htrace, hnc, hfirst⟩
    · intro hne
      have hm : make_encoder w store cfg reader =
          ([.build cfg.input_state cfg.output_file cfg.two_pass
            (w.build store cfg.input_state cfg.output_file cfg.two_pass)],
            w.build store cfg.input_state cfg.output_file cfg.two_pass) := by
        simp [make_encoder, hne]
      rw [hm] at htrace hfirst
      exact ⟨rest, htrace, hnc, hfirst⟩
  · intro hne dw dh
    unfold main
    rw [parse_args_with_display, hparse]
    exact session_with_display w dw dh store program_name cfg input_file fuel hne

/-- C5 in the concrete world. `xc-enc -o out.ivf two.ivf` is a fresh session:
it ends, and its encoder is `Encoder("out.ivf", 16, 8, false)`, on the display
size of the reader. `xc-enc -I ck -o next.ivf two.ivf`, where `ck` holds a
checkpoint taken after two frames, ends too: the encoder is rebuilt from `ck`
for the output file `next.ivf` of this command line, and the run is the same
whatever the display size of the reader is said to be. -/
theorem encoder_fresh_or_rebuilt_witness :
    (∃ run rest, main demo [] ["xc-enc", "-o", "out.ivf", "two.ivf"] 2 = some run ∧
      run.trace = [.IVFReader "two.ivf" (.ok ⟨16, 8, [1, 2]⟩)] ++
        [.Encoder "out.ivf" 16 8 false (.ok ⟨"out.ivf", false, 16, 8, 0, 0⟩)] ++ rest ∧
      (∀ ev ∈ rest, ev.is_construction = false) ∧
      (∀ c, (encode_calls rest).head? = some c →
        demo.Encoder "out.ivf" 16 8 false = .ok c.encoder)) ∧
    (∃ run rest,
      main demo [("ck", [16, 8, 2, 33])] ["xc-enc", "-I", "ck", "-o", "next.ivf", "two.ivf"] 2
        = some run ∧
      run.trace = [.IVFReader "two.ivf" (.ok ⟨16, 8, [1, 2]⟩)] ++
        [.build "ck" "next.ivf" false (.ok ⟨"next.ivf", false, 16, 8, 2, 33⟩)] ++ rest ∧
      (∀ ev ∈ rest, ev.is_construction = false) ∧
      ∀ dw dh,
        main (with_display demo dw dh) [("ck", [16, 8, 2, 33])]
            ["xc-enc", "-I", "ck", "-o", "next.ivf", "two.ivf"] 2 =
          main demo [("ck", [16, 8, 2, 33])]
            ["xc-enc", "-I", "ck", "-o", "next.ivf", "two.ivf"] 2) := by
  refine ⟨?_, ?_⟩
  · exact (encoder_fresh_or_rebuilt demo [] ["xc-enc", "-o", "out.ivf", "two.ivf"] 2 "xc-enc"
      { Config.initial with output_file := "out.ivf" } "two.ivf" ⟨16, 8, [1, 2]⟩ rfl rfl).1
      (by decide)
  · have h := encoder_fresh_or_rebuilt demo [("ck", [16, 8, 2, 33])]
      ["xc-enc", "-I", "ck", "-o", "next.ivf", "two.ivf"] 2 "xc-enc"
      { Config.initial with input_state := "ck", output_file := "next.ivf" } "two.ivf"
      ⟨16, 8, [1, 2]⟩ rfl rfl
    obtain ⟨run, rest, hrun, htrace, hnc, _⟩ := h.1 (by decide)
    exact ⟨run, rest, hrun, htrace, hnc, h.2.2.2.2 (by decide)⟩

/-- C6, as amended. A program name with no argument, and an argument vector
whose options parse and leave no positional argument (whatever input format
they select), make `main` print the usage text and return `EXIT_FAILURE`, and
nothing else is logged: no reader and no encoder is constructed, no frame is
read or encoded, no checkpoint is written. An argument vector whose options
parse, select an input format other than `"ivf"` and `"y4m"`, and leave a
positional argument makes `main` report the exception
`"unsupported input format"` (not the usage text) and return `EXIT_FAILURE`,
and nothing else is logged either. An argument vector whose options do not
parse makes `main` report the exception thrown in the option loop.
`EXIT_FAILURE` is not 0. -/
theorem usage_error_or_unsupported_format (w : World R S E B St) (store : St) (fuel : Nat) :
    (∀ program_name, main w store [program_name] fuel =
      some ⟨.exit EXIT_FAILURE, [.usage_error program_name], store, none⟩) ∧
    (∀ argv program_name rest cfg, argv = program_name :: rest → rest ≠ [] →
      parse_options w (w.getopt_long argv).opts Config.initial = .ok cfg →
      (w.getopt_long argv).operands = [] →
      main w store argv fuel =
        some ⟨.exit EXIT_FAILURE, [.usage_error program_name], store, none⟩) ∧
    (∀ argv program_name rest cfg input_file more, argv = program_name :: rest → rest ≠ [] →
      parse_options w (w.getopt_long argv).opts Config.initial = .ok cfg →
      (w.getopt_long argv).operands = input_file :: more →
      cfg.input_format ≠ "ivf" → cfg.input_format ≠ "y4m" →
      main w store argv fuel =
        some ⟨.exit EXIT_FAILURE, [.print_exception program_name "unsupported input format"],
          store, none⟩) ∧
    (∀ argv program_name rest what, argv = program_name :: rest → rest ≠ [] →
      parse_options w (w.getopt_long argv).opts Config.initial = .error what →
      main w store argv fuel =
        some ⟨.exit EXIT_FAILURE, [.print_exception program_name what], store, none⟩) ∧
    EXIT_FAILURE ≠ 0 := by
  have hlen : ∀ (program_name : String) (rest : List String), rest ≠ [] →
      ¬ (program_name :: rest).length < 2 := by
    intro program_name rest hrest
    cases rest with
    | nil => exact absurd rfl hrest
    | cons a r => simp
  refine ⟨?_, ?_, ?_, ?_, by decide⟩
  · intro program_name
    rfl
  · intro argv program_name rest cfg hargv hrest hopts hoper
    subst hargv
    have hp : parse_args w (program_name :: rest) = .usage program_name := by
      unfold parse_args
      simp only [hlen program_name rest hrest, if_false, hopts, hoper]
    unfold main
    rw [hp]
  · intro argv program_name rest cfg input_file more hargv hrest hopts hoper h1 h2
    subst hargv
    have hp : parse_args w (program_name :: rest) = .ready program_name cfg input_file := by
      unfold parse_args
      simp only [hlen program_name rest hrest, if_false, hopts, hoper]
    rw [main_ready w store (program_name :: rest) fuel program_name cfg input_file hp]
    unfold session
    have ho : open_input w cfg.input_format input_file =
        ([], .error "unsupported input format") := by
      simp [open_input, h1, h2]
    rw [ho]
    rfl
  · intro argv program_name rest what hargv hrest hopts
    subst hargv
    have hp : parse_args w (program_name :: rest) = .threw program_name what := by
      unfold parse_args
      simp only [hlen program_name rest hrest, if_false, hopts]
    unfold main
    rw [hp]
    rfl

/-- C6 as stated fails at `xc-enc -i mkv clip.mkv` in the concrete world: the
input format is neither `"ivf"` nor `"y4m"`, and what `main` prints is the
exception, not the usage text. -/
theorem unknown_format_prints_no_usage :
    main demo [] ["xc-enc", "-i", "mkv", "clip.mkv"] 0 =
        some ⟨.exit 1, [.print_exception "xc-enc" "unsupported input format"], [], none⟩ ∧
      (main demo [] ["xc-enc", "-i", "mkv", "clip.mkv"] 0).map
        (fun run => usage_texts run.trace) = some [] :=
  ⟨rfl, rfl⟩

/-- C6 as amended, in the concrete world: `xc-enc` alone, `xc-enc -o out.ivf`
and `xc-enc -i mkv` (an unknown format, but no positional argument) print the
usage text, `xc-enc -i mkv clip.mkv` reports the exception
`"unsupported input format"`, and `xc-enc -s high clip.ivf` the exception of
`stod`. -/
theorem usage_error_or_unsupported_format_witness :
    main demo [] ["xc-enc"] 0 = some ⟨.exit EXIT_FAILURE, [.usage_error "xc-enc"], [], none⟩ ∧
      main demo [] ["xc-enc", "-o", "out.ivf"] 0 =
        some ⟨.exit EXIT_FAILURE, [.usage_error "xc-enc"], [], none⟩ ∧
      main demo [] ["xc-enc", "-i", "mkv"] 0 =
        some ⟨.exit EXIT_FAILURE, [.usage_error "xc-enc"], [], none⟩ ∧
      main demo [] ["xc-enc", "-i", "mkv", "clip.mkv"] 0 =
        some ⟨.exit EXIT_FAILURE, [.print_exception "xc-enc" "unsupported input format"],
          [], none⟩ ∧
      main demo [] ["xc-enc", "-s", "high", "clip.ivf"] 0 =
        some ⟨.exit EXIT_FAILURE, [.print_exception "xc-enc" "stod"], [], none⟩ :=
  ⟨(usage_error_or_unsupported_format demo [] 0).1 "xc-enc",
    (usage_error_or_unsupported_format demo [] 0).2.1 ["xc-enc", "-o", "out.ivf"] "xc-enc"
      ["-o", "out.ivf"] { Config.initial with output_file := "out.ivf" } rfl (by decide)
      rfl rfl,
    (usage_error_or_unsupported_format demo [] 0).2.1 ["xc-enc", "-i", "mkv"] "xc-enc"
      ["-i", "mkv"] { Config.initial with input_format := "mkv" } rfl (by decide)
      rfl rfl,
    (usage_error_or_unsupported_format demo [] 0).2.2.1 ["xc-enc", "-i", "mkv", "clip.mkv"]
      "xc-enc" ["-i", "mkv", "clip.mkv"] { Config.initial with input_format := "mkv" }
      "clip.mkv" [] rfl (by decide) rfl rfl (by decide) (by decide),
    (usage_error_or_unsupported_format demo [] 0).2.2.2.1 ["xc-enc", "-s", "high", "clip.ivf"]
      "xc-enc" ["-s", "high", "clip.ivf"] "stod" rfl (by decide) rfl⟩

/-- C7, as amended. Whatever the two-pass flag of `cfg`, when the reader and
the encoder are constructed, the source yields the `n` frames `xs` and then
the end, and the calls of `encode` return, `main` ends with a log in which the
frame reader is constructed once, `get_next_frame` is called `n + 1` times
(delivering `xs` and then the end of the sequence) and `encode` is called on
exactly the frames `xs`, once each and in order: the sequence is traversed
once. The flag is passed on to the construction of the encoder and reaches
nothing else: the log is the construction of the reader, the construction of
the encoder with the flag of `cfg`, and a rest with no other construction;
and the command line with the flag flipped, run in the world whose
constructions of the encoder are given the opposite flag (so that the same
encoder is constructed), ends with the same status, store and encoder and
with the same log but for the flag logged at the construction. -/
theorem source_traversed_once (w : World R S E B St) (store : St) (argv : List String)
    (fuel : Nat) (program_name : String) (cfg : Config) (input_file : String) (reader : S)
    (encoder final : E) (xs : List R)
    (hparse : parse_args w argv = .ready program_name cfg input_file)
    (hopen : (open_input w cfg.input_format input_file).2 = .ok reader)
    (hmake : (make_encoder w store cfg reader).2 = .ok encoder)
    (hsrc : yields w reader xs)
    (hall : encode_all w cfg.ssim cfg.y_ac_qi encoder xs = .ok final)
    (hfuel : xs.length ≤ fuel) :
    ∃ run, main w store argv fuel = some run ∧
      reader_calls run.trace = [.ok reader] ∧
      (polls run.trace).length = xs.length + 1 ∧
      poll_frames run.trace = xs.map (fun x => .ok (some x)) ++ [.ok none] ∧
      (encode_calls run.trace).map EncodeCall.raster = xs ∧
      (make_encoder w store cfg reader).2 =
        (if cfg.input_state = "" then
          w.Encoder cfg.output_file (w.display_width reader) (w.display_height reader)
            cfg.two_pass
        else w.build store cfg.input_state cfg.output_file cfg.two_pass) ∧
      ∃ rest,
        run.trace = (open_input w cfg.input_format input_file).1 ++
          [if cfg.input_state = "" then
            .Encoder cfg.output_file (w.display_width reader) (w.display_height reader)
              cfg.two_pass (.ok encoder)
          else .build cfg.input_state cfg.output_file cfg.two_pass (.ok encoder)] ++ rest ∧
        (∀ ev ∈ rest, ev.is_construction = false) ∧
        ∀ argv', parse_args w argv' =
            .ready program_name { cfg with two_pass := !cfg.two_pass } input_file →
          main (with_flag_negated w) store argv' fuel =
            some ⟨run.status,
              (open_input w cfg.input_format input_file).1 ++
                [if cfg.input_state = "" then
                  .Encoder cfg.output_file (w.display_width reader)
                    (w.display_height reader) (!cfg.two_pass) (.ok encoder)
                else .build cfg.input_state cfg.output_file (!cfg.two_pass)
                  (.ok encoder)] ++ rest,
              run.store, run.encoder⟩ := by
  obtain ⟨mid, hin, hr, _, _, hp, hpf, hrun⟩ := session_complete w store program_name cfg
    input_file fuel reader encoder final xs hopen hmake hsrc hall hfuel
  obtain ⟨e1, _, e3⟩ := readings_session w store cfg input_file reader final mid
  obtain ⟨rest, htrace, hnc, hflip⟩ := session_flag w store program_name cfg input_file fuel
    reader encoder _ hopen hmake hrun
  rw [← main_ready w store argv fuel program_name cfg input_file hparse] at hrun
  have hreaders : reader_calls ((open_input w cfg.input_format input_file).1 ++
      (make_encoder w store cfg reader).1 ++ mid ++
      (save_state w store cfg.output_state final).1) = [.ok reader] := by
    have a := open_input_reader_calls w cfg.input_format input_file reader hopen
    obtain ⟨_, _, _, _, _, _, b⟩ := make_encoder_readings w store cfg reader
    obtain ⟨_, _, _, c⟩ := in_loop_readings hin
    obtain ⟨_, _, _, _, d⟩ := save_state_readings w store cfg.output_state final
    unfold reader_calls at *
    simp only [List.filterMap_append, a, b, c, d, List.append_nil]
  have hflag : (make_encoder w store cfg reader).2 =
      (if cfg.input_state = "" then
        w.Encoder cfg.output_file (w.display_width reader) (w.display_height reader)
          cfg.two_pass
      else w.build store cfg.input_state cfg.output_file cfg.two_pass) := by
    unfold make_encoder
    split_ifs <;> rfl
  have hpf' : ∀ trace : List (Event R S E B), polls trace = polls mid →
      poll_frames trace = xs.map (fun x => .ok (some x)) ++ [.ok none] := by
    intro trace h
    unfold poll_frames at hpf ⊢
    rw [h]
    exact hpf
  have hother : ∀ argv', parse_args w argv' =
      .ready program_name { cfg with two_pass := !cfg.two_pass } input_file →
      main (with_flag_negated w) store argv' fuel =
        session (with_flag_negated w) store program_name
          { cfg with two_pass := !cfg.two_pass } input_file fuel := by
    intro argv' hp'
    unfold main
    rw [parse_args_with_flag_negated, hp']
  refine ⟨_, hrun, ?_, ?_, ?_, ?_, hflag, rest, htrace, hnc, fun argv' hp' => by
    rw [hother argv' hp']
    exact hflip⟩ <;>
  · cases (save_state w store cfg.output_state final).2 with
    | error what =>
      simp only []
      obtain ⟨f1, _, f3, _, _, _, f7⟩ := readings_caught program_name
        ((open_input w cfg.input_format input_file).1 ++ (make_encoder w store cfg reader).1
          ++ mid ++ (save_state w store cfg.output_state final).1) store what
      first
      | exact hpf' _ (f3.trans e3)
      | (simp only [f1, f3, f7, e1, e3]
         first | exact hreaders | exact hr | exact hp)
    | ok store' =>
      first
      | exact hpf' _ e3
      | (simp only [e1, e3]
         first | exact hreaders | exact hr | exact hp)

/-- C7 at `xc-enc --two-pass two.ivf` in the concrete world: the amended
statement applies with the flag on, the flag is logged at the construction of
the encoder, and `xc-enc two.ivf`, run with constructions that are given the
opposite flag, gives the same run but for the flag logged there. -/
theorem source_traversed_once_witness :
    parse_args demo ["xc-enc", "--two-pass", "two.ivf"] =
        .ready "xc-enc" { Config.initial with two_pass := true } "two.ivf" ∧
      ∃ run rest, main demo [] ["xc-enc", "--two-pass", "two.ivf"] 2 = some run ∧
        reader_calls run.trace = [.ok ⟨16, 8, [1, 2]⟩] ∧
        (polls run.trace).length = 3 ∧
        (encode_calls run.trace).map EncodeCall.raster = [1, 2] ∧
        run.trace = [.IVFReader "two.ivf" (.ok ⟨16, 8, [1, 2]⟩)] ++
          [.Encoder "output.ivf" 16 8 true (.ok ⟨"output.ivf", true, 16, 8, 0, 0⟩)] ++ rest ∧
        (∀ ev ∈ rest, ev.is_construction = false) ∧
        main (with_flag_negated demo) [] ["xc-enc", "two.ivf"] 2 =
          some ⟨run.status,
            [.IVFReader "two.ivf" (.ok ⟨16, 8, [1, 2]⟩)] ++
              [.Encoder "output.ivf" 16 8 false (.ok ⟨"output.ivf", true, 16, 8, 0, 0⟩)] ++
              rest,
            run.store, run.encoder⟩ :=
  ⟨rfl, by
    obtain ⟨run, hrun, h1, h2, _, h3, _, rest, htrace, hnc, hflip⟩ :=
      source_traversed_once demo [] ["xc-enc", "--two-pass", "two.ivf"] 2 "xc-enc"
        { Config.initial with two_pass := true } "two.ivf" ⟨16, 8, [1, 2]⟩
        ⟨"output.ivf", true, 16, 8, 0, 0⟩ ⟨"output.ivf", true, 16, 8, 2, 33⟩ [1, 2]
        rfl rfl rfl ⟨rfl, rfl, trivial⟩ rfl (by decide)
    exact ⟨run, rest, hrun, h1, h2, h3, htrace, hnc, hflip ["xc-enc", "two.ivf"] rfl⟩⟩

/-- C7 as stated fails at `xc-enc --two-pass two.ivf` in the concrete world:
the two-pass flag is on, and the two frames of the source are each passed to
`encode` once, not twice, after three polls of a reader constructed once. -/
theorem two_pass_traverses_once :
    parse_args demo ["xc-enc", "--two-pass", "two.ivf"] =
        .ready "xc-enc" { Config.initial with two_pass := true } "two.ivf" ∧
      (main demo [] ["xc-enc", "--two-pass", "two.ivf"] 5).map
        (fun run => (run.status, (encode_calls run.trace).map EncodeCall.raster,
          (polls run.trace).length, (reader_calls run.trace).length)) =
        some (.exit 0, [1, 2], 3, 1) ∧
      ([1, 2] : List Nat) ≠ [1, 2, 1, 2] :=
  ⟨rfl, rfl, by decide⟩

/-- C8. When the frame source signals the end of the sequence on its first
poll, `main` ends whatever the fuel, with no `encode` call and no progress
report in its log. Every checkpoint write it logs is to `output_state`, and
writes the serialization of the encoder that `make_encoder` constructed, which
no `encode` has touched. When that encoder is constructed and a requested
`serialize` and `write` return, the run is: reader, encoder, one poll,
`serialize`, `write`, with status `EXIT_SUCCESS` and the store `write`
returned. With an empty `input_state` the constructed encoder is
`Encoder(output_file, display_width, display_height, two_pass)`. -/
theorem empty_source_checkpoints_initial_state (w : World R S E B St) (store : St)
    (argv : List String) (fuel : Nat) (program_name : String) (cfg : Config)
    (input_file : String) (reader : S)
    (hparse : parse_args w argv = .ready program_name cfg input_file)
    (hopen : (open_input w cfg.input_format input_file).2 = .ok reader)
    (hsrc : yields w reader []) :
    ∃ run, main w store argv fuel = some run ∧
      encode_calls run.trace = [] ∧ reports run.trace = [] ∧
      (∀ odata path result, (odata, path, result) ∈ write_calls run.trace →
        path = cfg.output_state ∧ cfg.output_state ≠ "" ∧
        ∃ encoder, (make_encoder w store cfg reader).2 = .ok encoder ∧
          w.serialize encoder = .ok odata) ∧
      (∀ encoder odata store', (make_encoder w store cfg reader).2 = .ok encoder →
        cfg.output_state ≠ "" → w.serialize encoder = .ok odata →
        w.write store odata cfg.output_state = .ok store' →
        run = ⟨.exit EXIT_SUCCESS,
          (open_input w cfg.input_format input_file).1 ++ (make_encoder w store cfg reader).1
            ++ [.get_next_frame reader (w.get_next_frame reader),
                .serialize encoder (.ok odata), .write odata cfg.output_state (.ok ())],
          store', some encoder⟩) ∧
      (cfg.input_state = "" → (make_encoder w store cfg reader).2 =
        w.Encoder cfg.output_file (w.display_width reader) (w.display_height reader)
          cfg.two_pass) := by
  have hfresh : cfg.input_state = "" → (make_encoder w store cfg reader).2 =
      w.Encoder cfg.output_file (w.display_width reader) (w.display_height reader)
        cfg.two_pass := by
    intro h
    simp [make_encoder, h]
  obtain ⟨a1, a2, _, _, a5, _⟩ := open_input_readings w cfg.input_format input_file
  obtain ⟨b1, b2, _, _, b5, _⟩ := make_encoder_readings w store cfg reader
  rw [main_ready w store argv fuel program_name cfg input_file hparse]
  cases hmk : (make_encoder w store cfg reader).2 with
  | error what =>
    have hrun : session w store program_name cfg input_file fuel = some (caught program_name
        ((open_input w cfg.input_format input_file).1 ++ (make_encoder w store cfg reader).1)
        store what) := by
      unfold session
      rcases ho : open_input w cfg.input_format input_file with ⟨t1, r1⟩
      rw [ho] at hopen
      dsimp only at hopen
      subst hopen
      simp only []
      rcases hm : make_encoder w store cfg reader with ⟨t2, r2⟩
      rw [hm] at hmk
      dsimp only at hmk
      subst hmk
      simp only []
    obtain ⟨f1, f2, _, _, f5, _⟩ := readings_caught program_name
      ((open_input w cfg.input_format input_file).1 ++ (make_encoder w store cfg reader).1)
      store what
    refine ⟨_, hrun, ?_, ?_, ?_, ?_, ?_⟩
    · rw [f1]
      unfold encode_calls at *
      simp only [List.filterMap_append, a1, b1, List.append_nil]
    · rw [f2]
      unfold reports at *
      simp only [List.filterMap_append, a2, b2, List.append_nil]
    · intro odata path result hmem
      rw [f5] at hmem
      unfold write_calls at *
      simp only [List.filterMap_append, a5, b5, List.append_nil] at hmem
      cases hmem
    · intro encoder odata store' he
      cases he
    · intro h
      rw [← hmk]
      exact hfresh h
  | ok encoder =>
    obtain ⟨mid, _, _, _, _, _, _, hrun⟩ := session_complete w store program_name cfg
      input_file fuel reader encoder encoder [] hopen hmk hsrc rfl (Nat.zero_le _)
    -- the polls of an empty source: the one poll before the loop
    have hrun' : session w store program_name cfg input_file fuel = some
        (match (save_state w store cfg.output_state encoder).2 with
        | .ok store' => ⟨.exit EXIT_SUCCESS,
            (open_input w cfg.input_format input_file).1 ++ (make_encoder w store cfg reader).1
              ++ [.get_next_frame reader (w.get_next_frame reader)]
              ++ (save_state w store cfg.output_state encoder).1, store', some encoder⟩
        | .error what => caught program_name
            ((open_input w cfg.input_format input_file).1 ++ (make_encoder w store cfg reader).1
              ++ [.get_next_frame reader (w.get_next_frame reader)]
              ++ (save_state w store cfg.output_state encoder).1) store what) := by
      unfold session
      rcases ho : open_input w cfg.input_format input_file with ⟨t1, r1⟩
      rw [ho] at hopen
      dsimp only at hopen
      subst hopen
      simp only []
      rcases hm : make_encoder w store cfg reader with ⟨t2, r2⟩
      rw [hm] at hmk
      dsimp only at hmk
      subst hmk
      simp only []
      unfold yields at hsrc
      cases hpoll : w.get_next_frame reader with
      | error what => simp [hpoll] at hsrc
      | ok res =>
        obtain ⟨raster, reader'⟩ := res
        cases raster with
        | some y => simp [hpoll] at hsrc
        | none =>
          simp only [encode_loop_none]
          rcases hsave : save_state w store cfg.output_state encoder with ⟨t4, r4⟩
          cases r4 <;> simp
    clear hrun
    obtain ⟨c1, c2, _, _, _⟩ := save_state_readings w store cfg.output_state encoder
    have he : encode_calls ((open_input w cfg.input_format input_file).1 ++
        (make_encoder w store cfg reader).1 ++
        [.get_next_frame reader (w.get_next_frame reader)] ++
        (save_state w store cfg.output_state encoder).1) = [] := by
      unfold encode_calls at *
      simp only [List.filterMap_append, a1, b1, c1, List.append_nil]
      simp [Event.encode_call?]
    have hr : reports ((open_input w cfg.input_format input_file).1 ++
        (make_encoder w store cfg reader).1 ++
        [.get_next_frame reader (w.get_next_frame reader)] ++
        (save_state w store cfg.output_state encoder).1) = [] := by
      unfold reports at *
      simp only [List.filterMap_append, a2, b2, c2, List.append_nil]
      simp [Event.report?]
    have hw : write_calls ((open_input w cfg.input_format input_file).1 ++
        (make_encoder w store cfg reader).1 ++
        [.get_next_frame reader (w.get_next_frame reader)] ++
        (save_state w store cfg.output_state encoder).1) =
        write_calls (save_state w store cfg.output_state encoder).1 := by
      unfold write_calls at *
      simp only [List.filterMap_append, a5, b5, List.nil_append]
      simp [Event.write_call?]
    have hwrites : ∀ odata path result,
        (odata, path, result) ∈ write_calls (save_state w store cfg.output_state encoder).1 →
        path = cfg.output_state ∧ cfg.output_state ≠ "" ∧
        ∃ encoder', (Except.ok encoder : Except String E) = Except.ok encoder' ∧
          w.serialize encoder' = .ok odata := by
      intro odata path result hmem
      unfold save_state at hmem
      by_cases hempty : cfg.output_state = ""
      · simp [hempty, write_calls] at hmem
      · simp only [ne_eq, hempty, not_false_eq_true, if_true] at hmem
        cases hser : w.serialize encoder with
        | error what => simp [hser, write_calls, Event.write_call?] at hmem
        | ok odata' =>
          cases hwr : w.write store odata' cfg.output_state with
          | error what =>
            simp [hser, hwr, write_calls, Event.write_call?] at hmem
            exact ⟨hmem.2.1, hempty, encoder, rfl, by rw [hmem.1, hser]⟩
          | ok store' =>
            simp [hser, hwr, write_calls, Event.write_call?] at hmem
            exact ⟨hmem.2.1, hempty, encoder, rfl, by rw [hmem.1, hser]⟩
    refine ⟨_, hrun', ?_, ?_, ?_, ?_, ?_⟩
    · cases hsv : (save_state w store cfg.output_state encoder).2 with
      | error what =>
        simp only []
        rw [(readings_caught program_name _ store what).1]
        exact he
      | ok store' => exact he
    · cases hsv : (save_state w store cfg.output_state encoder).2 with
      | error what =>
        simp only []
        rw [(readings_caught program_name _ store what).2.1]
        exact hr
      | ok store' => exact hr
    · intro odata path result hmem
      cases hsv : (save_state w store cfg.output_state encoder).2 with
      | error what =>
        rw [hsv] at hmem
        simp only [] at hmem
        rw [(readings_caught program_name _ store what).2.2.2.2.1, hw] at hmem
        exact hwrites odata path result hmem
      | ok store' =>
        rw [hsv] at hmem
        simp only [] at hmem
        rw [hw] at hmem
        exact hwrites odata path result hmem
    · intro encoder' odata store' he' hne hser hwr
      injection he' with he'
      subst he'
      have hs : save_state w store cfg.output_state encoder =
          ([.serialize encoder (.ok odata), .write odata cfg.output_state (.ok ())],
            .ok store') := by
        simp [save_state, hne, hser, hwr]
      rw [hs]
      simp
    · intro h
      rw [← hmk]
      exact hfresh h

/-- C8 at `xc-enc -O ck empty.ivf` in the concrete world, with no fuel: the
checkpoint written is the serialization of the fresh 16x8 encoder. -/
theorem empty_source_checkpoints_initial_state_witness :
    ∃ run, main demo [] ["xc-enc", "-O", "ck", "empty.ivf"] 0 = some run ∧
      encode_calls run.trace = [] ∧ reports run.trace = [] ∧
      write_calls run.trace = [([16, 8, 0, 0], "ck", .ok ())] ∧
      run.store = [("ck", [16, 8, 0, 0])] ∧
      demo.Encoder "output.ivf" 16 8 false = .ok ⟨"output.ivf", false, 16, 8, 0, 0⟩ ∧
      demo.serialize ⟨"output.ivf", false, 16, 8, 0, 0⟩ = .ok [16, 8, 0, 0] := by
  obtain ⟨run, hrun, he, hr, _, hexact, _⟩ :=
    empty_source_checkpoints_initial_state demo [] ["xc-enc", "-O", "ck", "empty.ivf"] 0
      "xc-enc" { Config.initial with output_state := "ck" } "empty.ivf" ⟨16, 8, []⟩
      rfl rfl trivial
  have hrun' := hexact ⟨"output.ivf", false, 16, 8, 0, 0⟩ [16, 8, 0, 0]
    [("ck", [16, 8, 0, 0])] rfl (by decide) rfl rfl
  subst hrun'
  exact ⟨_, hrun, he, hr, rfl, rfl, rfl, rfl⟩

/-- What the `switch` does for each value `getopt_long` can return. -/
theorem apply_option_each (w : World R S E B St) (cfg : Config) (optarg : String) :
    apply_option w cfg 'o' optarg = .ok { cfg with output_file := optarg } ∧
    apply_option w cfg 'i' optarg = .ok { cfg with input_format := optarg } ∧
    apply_option w cfg 'O' optarg = .ok { cfg with output_state := optarg } ∧
    apply_option w cfg 'I' optarg = .ok { cfg with input_state := optarg } ∧
    apply_option w cfg '2' optarg = .ok { cfg with two_pass := true } ∧
    (∀ v, w.stod optarg = .ok v →
      apply_option w cfg 's' optarg = .ok { cfg with ssim := v }) ∧
    (∀ what, w.stod optarg = .error what → apply_option w cfg 's' optarg = .error what) ∧
    (∀ v, w.stoul optarg = .ok v →
      apply_option w cfg 'y' optarg = .ok { cfg with y_ac_qi := v.val }) ∧
    (∀ what, w.stoul optarg = .error what → apply_option w cfg 'y' optarg = .error what) ∧
    (∀ opt, opt ≠ 'o' → opt ≠ 's' → opt ≠ 'i' → opt ≠ 'O' → opt ≠ 'I' → opt ≠ '2' →
      opt ≠ 'y' →
      apply_option w cfg opt optarg = .error "getopt_long: unexpected return value.") := by
  refine ⟨rfl, rfl, rfl, rfl, rfl, ?_, ?_, ?_, ?_, ?_⟩
  · intro v hv
    simp [apply_option, hv]
  · intro what hv
    simp [apply_option, hv]
  · intro v hv
    simp [apply_option, hv]
  · intro what hv
    simp [apply_option, hv]
  · intro opt h1 h2 h3 h4 h5 h6 h7
    simp [apply_option, h1, h2, h3, h4, h5, h6, h7]

/-- The option loop ends without throwing when every returned option is
accepted. -/
theorem parse_options_accepts (w : World R S E B St) :
    ∀ (opts : List (Char × String)) (cfg0 : Config),
      (∀ o ∈ opts, option_accepted w o) → ∃ cfg, parse_options w opts cfg0 = .ok cfg := by
  intro opts
  induction opts with
  | nil =>
    intro cfg0 _
    exact ⟨cfg0, rfl⟩
  | cons o rest ih =>
    intro cfg0 hacc
    obtain ⟨opt, optarg⟩ := o
    have hstep : ∃ cfg1, apply_option w cfg0 opt optarg = .ok cfg1 := by
      obtain ⟨e1, e2, e3, e4, e5, e6, _, e8, _⟩ := apply_option_each w cfg0 optarg
      have h := hacc (opt, optarg) (List.mem_cons_self _ _)
      unfold option_accepted at h
      simp only at h
      rcases h with h | h | h | h | h | ⟨h, v, hv⟩ | ⟨h, v, hv⟩
      · exact ⟨_, by rw [h]; exact e1⟩
      · exact ⟨_, by rw [h]; exact e2⟩
      · exact ⟨_, by rw [h]; exact e3⟩
      · exact ⟨_, by rw [h]; exact e4⟩
      · exact ⟨_, by rw [h]; exact e5⟩
      · exact ⟨_, by rw [h]; exact e6 v hv⟩
      · exact ⟨_, by rw [h]; exact e8 v hv⟩
    obtain ⟨cfg1, h1⟩ := hstep
    obtain ⟨cfg, h2⟩ := ih cfg1 (fun o ho => hacc o (List.mem_cons_of_mem _ ho))
    exact ⟨cfg, by simp only [parse_options, h1]; exact h2⟩

/-- C9. When `getopt_long` finds no option in an argument vector that has
arguments, and leaves a positional argument, option parsing ends with output
file `"output.ivf"`, input format `"ivf"`, no input state, no output state,
target `0.99`, two-pass off and `y_ac_qi` at `SIZE_MAX`. One pass through the
`switch` sets, for `-o`, `-i`, `-O`, `-I` and `--two-pass` always, for `-s` and
`--y-ac-qi` when `stod` and `stoul` convert the argument, the setting of the
option returned and no other; it throws what `stod` or `stoul` throws, and
throws on any other returned value. The option loop ends without throwing
when every option returned is accepted, and when it ends each setting is the
argument of the last occurrence of its own option (two-pass is on when
`--two-pass` occurred), or else the value it had before the loop. -/
theorem options_change_only_their_setting (w : World R S E B St) :
    (∀ argv program_name rest input_file more, argv = program_name :: rest → rest ≠ [] →
      (w.getopt_long argv).opts = [] → (w.getopt_long argv).operands = input_file :: more →
      parse_args w argv = .ready program_name
        ⟨"output.ivf", "ivf", "", "", ssim_default, false, SIZE_MAX⟩ input_file) ∧
    (∀ opts cfg0 cfg, parse_options w opts cfg0 = .ok cfg →
      cfg.output_file = (last_arg 'o' opts).getD cfg0.output_file ∧
      cfg.input_format = (last_arg 'i' opts).getD cfg0.input_format ∧
      cfg.output_state = (last_arg 'O' opts).getD cfg0.output_state ∧
      cfg.input_state = (last_arg 'I' opts).getD cfg0.input_state ∧
      cfg.two_pass = (cfg0.two_pass || opts.any (fun o => decide (o.1 = '2'))) ∧
      (match last_arg 's' opts with
        | none => cfg.ssim = cfg0.ssim
        | some a => w.stod a = .ok cfg.ssim) ∧
      (match last_arg 'y' opts with
        | none => cfg.y_ac_qi = cfg0.y_ac_qi
        | some a => ∃ v, w.stoul a = .ok v ∧ cfg.y_ac_qi = v.val)) ∧
    (∀ cfg cfg' opt optarg, apply_option w cfg opt optarg = .ok cfg' →
      (opt = 'o' ∧ cfg' = { cfg with output_file := optarg }) ∨
      (opt = 's' ∧ ∃ v, w.stod optarg = .ok v ∧ cfg' = { cfg with ssim := v }) ∨
      (opt = 'i' ∧ cfg' = { cfg with input_format := optarg }) ∨
      (opt = 'O' ∧ cfg' = { cfg with output_state := optarg }) ∨
      (opt = 'I' ∧ cfg' = { cfg with input_state := optarg }) ∨
      (opt = '2' ∧ cfg' = { cfg with two_pass := true }) ∨
      (opt = 'y' ∧ ∃ v, w.stoul optarg = .ok v ∧ cfg' = { cfg with y_ac_qi := v.val })) ∧
    (∀ cfg optarg,
      apply_option w cfg 'o' optarg = .ok { cfg with output_file := optarg } ∧
      apply_option w cfg 'i' optarg = .ok { cfg with input_format := optarg } ∧
      apply_option w cfg 'O' optarg = .ok { cfg with output_state := optarg } ∧
      apply_option w cfg 'I' optarg = .ok { cfg with input_state := optarg } ∧
      apply_option w cfg '2' optarg = .ok { cfg with two_pass := true } ∧
      (∀ v, w.stod optarg = .ok v →
        apply_option w cfg 's' optarg = .ok { cfg with ssim := v }) ∧
      (∀ what, w.stod optarg = .error what →
        apply_option w cfg 's' optarg = .error what) ∧
      (∀ v, w.stoul optarg = .ok v →
        apply_option w cfg 'y' optarg = .ok { cfg with y_ac_qi := v.val }) ∧
      (∀ what, w.stoul optarg = .error what →
        apply_option w cfg 'y' optarg = .error what) ∧
      (∀ opt, opt ≠ 'o' → opt ≠ 's' → opt ≠ 'i' → opt ≠ 'O' → opt ≠ 'I' → opt ≠ '2' →
        opt ≠ 'y' →
        apply_option w cfg opt optarg = .error "getopt_long: unexpected return value.")) ∧
    (∀ opts cfg0, (∀ o ∈ opts, option_accepted w o) →
      ∃ cfg, parse_options w opts cfg0 = .ok cfg) ∧
    (∀ argv program_name rest input_file more, argv = program_name :: rest → rest ≠ [] →
      (∀ o ∈ (w.getopt_long argv).opts, option_accepted w o) →
      (w.getopt_long argv).operands = input_file :: more →
      ∃ cfg, parse_args w argv = .ready program_name cfg input_file ∧
        parse_options w (w.getopt_long argv).opts Config.initial = .ok cfg) := by
  refine ⟨?_, parse_options_last w, fun cfg cfg' opt optarg h =>
    apply_option_cases w cfg cfg' opt optarg h, fun cfg optarg =>
    apply_option_each w cfg optarg, parse_options_accepts w, ?_⟩
  · intro argv program_name rest input_file more hargv hrest hopts hoper
    subst hargv
    unfold parse_args
    have hlen : ¬ (program_name :: rest).length < 2 := by
      cases rest with
      | nil => exact absurd rfl hrest
      | cons a r => simp
    simp only [hlen, if_false, hopts, hoper, parse_options]
    rfl
  · intro argv program_name rest input_file more hargv hrest hacc hoper
    subst hargv
    obtain ⟨cfg, hcfg⟩ := parse_options_accepts w _ Config.initial hacc
    refine ⟨cfg, ?_, hcfg⟩
    unfold parse_args
    have hlen : ¬ (program_name :: rest).length < 2 := by
      cases rest with
      | nil => exact absurd rfl hrest
      | cons a r => simp
    simp only [hlen, if_false, hcfg, hoper]

/-- C9 in the concrete world. `xc-enc clip.ivf` parses to the initial values.
In `xc-enc -o a.ivf --ssim=0.5 -Ick --two-pass -o b.ivf --y-ac-qi 7 clip.ivf`
every option is accepted, so parsing ends; the second `-o` wins, `-s`, `-I`,
`--two-pass` and `--y-ac-qi` set their settings, and the input format and the
output state, for which no option is given, keep their initial values. -/
theorem options_change_only_their_setting_witness :
    parse_args demo ["xc-enc", "clip.ivf"] =
        .ready "xc-enc" ⟨"output.ivf", "ivf", "", "", ssim_default, false, SIZE_MAX⟩
          "clip.ivf" ∧
      ∃ cfg,
        parse_args demo
          ["xc-enc", "-o", "a.ivf", "--ssim=0.5", "-Ick", "--two-pass", "-o", "b.ivf",
            "--y-ac-qi", "7", "clip.ivf"] = .ready "xc-enc" cfg "clip.ivf" ∧
        cfg.output_file = "b.ivf" ∧ cfg.input_format = "ivf" ∧ cfg.output_state = "" ∧
        cfg.input_state = "ck" ∧ cfg.two_pass = true ∧
        demo.stod "0.5" = .ok cfg.ssim ∧
        (∃ v, demo.stoul "7" = .ok v ∧ cfg.y_ac_qi = v.val) := by
  refine ⟨(options_change_only_their_setting demo).1 ["xc-enc", "clip.ivf"] "xc-enc"
    ["clip.ivf"] "clip.ivf" [] rfl (by decide) rfl rfl, ?_⟩
  have hopts : (demo.getopt_long
      ["xc-enc", "-o", "a.ivf", "--ssim=0.5", "-Ick", "--two-pass", "-o", "b.ivf",
        "--y-ac-qi", "7", "clip.ivf"]).opts =
      [('o', "a.ivf"), ('s', "0.5"), ('I', "ck"), ('2', ""), ('o', "b.ivf"), ('y', "7")] := rfl
  obtain ⟨cfg, hready, hcfg⟩ :=
    (options_change_only_their_setting demo).2.2.2.2.2
      ["xc-enc", "-o", "a.ivf", "--ssim=0.5", "-Ick", "--two-pass", "-o", "b.ivf",
        "--y-ac-qi", "7", "clip.ivf"] "xc-enc"
      ["-o", "a.ivf", "--ssim=0.5", "-Ick", "--two-pass", "-o", "b.ivf", "--y-ac-qi", "7",
        "clip.ivf"] "clip.ivf" [] rfl (by decide)
      (by
        rw [hopts]
        intro o ho
        simp only [List.mem_cons, List.mem_singleton, List.not_mem_nil, or_false] at ho
        rcases ho with rfl | rfl | rfl | rfl | rfl | rfl
        · exact .inl rfl
        · exact .inr (.inr (.inr (.inr (.inr (.inl ⟨rfl, _, rfl⟩)))))
        · exact .inr (.inr (.inr (.inl rfl)))
        · exact .inr (.inr (.inr (.inr (.inl rfl))))
        · exact .inl rfl
        · exact .inr (.inr (.inr (.inr (.inr (.inr ⟨rfl, _, rfl⟩))))))
      rfl
  rw [hopts] at hcfg
  obtain ⟨h1, h2, h3, h4, h5, h6, h7⟩ :=
    (options_change_only_their_setting demo).2.1 _ Config.initial cfg hcfg
  exact ⟨cfg, hready, h1, h2, h3, h4, h5, h6, h7⟩

theorem parse_options_append (w : World R S E B St) :
    ∀ (pre post : List (Char × String)) (cfg : Config),
      parse_options w (pre ++ post) cfg =
        match parse_options w pre cfg with
        | .error what => .error what
        | .ok cfg' => parse_options w post cfg' := by
  intro pre
  induction pre with
  | nil =>
    intro post cfg
    simp [parse_options]
  | cons o pre ih =>
    intro post cfg
    obtain ⟨opt, optarg⟩ := o
    simp only [List.cons_append, parse_options]
    cases apply_option w cfg opt optarg with
    | error what => rfl
    | ok cfg1 => exact ih post cfg1

/-- An explicit `--y-ac-qi` whose value is `SIZE_MAX`, given where no earlier
`--y-ac-qi` stands, leaves the option loop where it would be without it. -/
theorem parse_options_y_ac_qi_max (w : World R S E B St) (pre post : List (Char × String))
    (a : String) (v : Fin (2 ^ 64)) (hpre : last_arg 'y' pre = none)
    (hv : w.stoul a = .ok v) (hmax : v.val = SIZE_MAX) :
    parse_options w (pre ++ ('y', a) :: post) Config.initial =
      parse_options w (pre ++ post) Config.initial := by
  rw [parse_options_append, parse_options_append]
  cases hp : parse_options w pre Config.initial with
  | error what => rfl
  | ok cfg1 =>
    obtain ⟨_, _, _, _, _, _, h7⟩ := parse_options_last w pre Config.initial cfg1 hp
    rw [hpre] at h7
    simp only [] at h7
    have hstep : apply_option w cfg1 'y' a = .ok cfg1 := by
      have : cfg1.y_ac_qi = v.val := by
        rw [h7, hmax]
        rfl
      simp [apply_option, hv, ← this]
    simp only [parse_options, hstep]

/-- C10. For a run of `main` that is over, with options parsed to `cfg`: every
call of `encode` in the log carries the same target `cfg.ssim` and the same
quantization index `cfg.y_ac_qi`; the target is what `stod` returns for the
argument of the last `-s`, or `0.99` without `-s`; the index is what `stoul`
returns for the argument of the last `--y-ac-qi`, or `SIZE_MAX = 2^64 - 1`
without it. And a command line with one `--y-ac-qi` whose value is `SIZE_MAX`
runs exactly as the command line without it. -/
theorem encode_arguments_fixed (w : World R S E B St) (store : St) (argv : List String)
    (fuel : Nat) (program_name : String) (cfg : Config) (input_file : String)
    (run : Run R S E B St)
    (hparse : parse_args w argv = .ready program_name cfg input_file)
    (hrun : main w store argv fuel = some run) :
    (∀ c ∈ encode_calls run.trace, c.ssim = cfg.ssim ∧ c.y_ac_qi = cfg.y_ac_qi) ∧
    (match last_arg 's' (w.getopt_long argv).opts with
      | none => cfg.ssim = ssim_default
      | some a => w.stod a = .ok cfg.ssim) ∧
    (match last_arg 'y' (w.getopt_long argv).opts with
      | none => cfg.y_ac_qi = SIZE_MAX
      | some a => ∃ v, w.stoul a = .ok v ∧ cfg.y_ac_qi = v.val) ∧
    SIZE_MAX = 2 ^ 64 - 1 ∧
    (∀ (argv1 argv2 : List String) (pre post : List (Char × String)) (a : String)
      (v : Fin (2 ^ 64)) (store' : St) (fuel' : Nat),
      argv1.head? = argv2.head? → 2 ≤ argv1.length → 2 ≤ argv2.length →
      (w.getopt_long argv1).opts = pre ++ ('y', a) :: post →
      (w.getopt_long argv2).opts = pre ++ post →
      (w.getopt_long argv1).operands = (w.getopt_long argv2).operands →
      last_arg 'y' pre = none → w.stoul a = .ok v → v.val = SIZE_MAX →
      main w store' argv1 fuel' = main w store' argv2 fuel') := by
  refine ⟨fun c hc => ?_, ?_, ?_, rfl, ?_⟩
  · obtain ⟨h1, h2, _⟩ := run_encode_calls w store argv fuel program_name cfg input_file run
      hparse hrun c hc
    exact ⟨h1, h2⟩
  · have hp := hparse
    unfold parse_args at hp
    split at hp
    · cases hp
    · split_ifs at hp
      split at hp
      · cases hp
      · rename_i cfg' hopts
        split at hp
        · cases hp
        · injection hp with _ hcfg _
          subst hcfg
          exact (parse_options_last w _ Config.initial cfg' hopts).2.2.2.2.2.1
  · have hp := hparse
    unfold parse_args at hp
    split at hp
    · cases hp
    · split_ifs at hp
      split at hp
      · cases hp
      · rename_i cfg' hopts
        split at hp
        · cases hp
        · injection hp with _ hcfg _
          subst hcfg
          exact (parse_options_last w _ Config.initial cfg' hopts).2.2.2.2.2.2
  · intro argv1 argv2 pre post a v store' fuel' hhead h1 h2 ho1 ho2 hoper hpre hv hmax
    have hpa : parse_args w argv1 = parse_args w argv2 := by
      unfold parse_args
      cases argv1 with
      | nil => simp at h1
      | cons p1 r1 =>
        cases argv2 with
        | nil => simp at h2
        | cons p2 r2 =>
          simp only [List.head?_cons, Option.some.injEq] at hhead
          subst hhead
          have l1 : ¬ (p1 :: r1).length < 2 := by omega
          have l2 : ¬ (p1 :: r2).length < 2 := by omega
          simp only [l1, l2, if_false, ho1, ho2, hoper,
            parse_options_y_ac_qi_max w pre post a v hpre hv hmax]
    unfold main
    rw [hpa]

/-- C10 in the concrete world: in `xc-enc -s 0.5 --y-ac-qi 12 two.ivf` every
`encode` gets the target 0.5 and the index 12, and
`xc-enc --y-ac-qi 18446744073709551615 two.ivf` runs as `xc-enc two.ivf`. -/
theorem encode_arguments_fixed_witness :
    (∃ run, main demo [] ["xc-enc", "-s", "0.5", "--y-ac-qi", "12", "two.ivf"] 2 = some run ∧
      (encode_calls run.trace).length = 2 ∧
      ∀ c ∈ encode_calls run.trace, c.ssim = ⟨0x3FE0000000000000⟩ ∧ c.y_ac_qi = 12) ∧
    main demo [] ["xc-enc", "--y-ac-qi", "18446744073709551615", "two.ivf"] 2 =
      main demo [] ["xc-enc", "two.ivf"] 2 := by
  obtain ⟨run, hrun⟩ : ∃ run, main demo []
      ["xc-enc", "-s", "0.5", "--y-ac-qi", "12", "two.ivf"] 2 = some run := ⟨_, rfl⟩
  have h := encode_arguments_fixed demo [] ["xc-enc", "-s", "0.5", "--y-ac-qi", "12", "two.ivf"]
    2 "xc-enc" { Config.initial with ssim := ⟨0x3FE0000000000000⟩, y_ac_qi := 12 } "two.ivf"
    run rfl hrun
  refine ⟨⟨run, hrun, ?_, h.1⟩, ?_⟩
  · have hrun' := hrun
    injection hrun' with hrun'
    subst hrun'
    rfl
  · exact h.2.2.2.2 ["xc-enc", "--y-ac-qi", "18446744073709551615", "two.ivf"]
      ["xc-enc", "two.ivf"] [] [] "18446744073709551615" ⟨SIZE_MAX, by decide⟩ [] 2
      rfl (by decide) (by decide) rfl rfl rfl rfl rfl rfl

end XcEnc
